import Mathlib

/-!
# Verification of `advanced-vector/vector.h`

Shallow embedding of the repository's `RawMemory<T>` / `Vector<T>` pair.

A raw block is modelled as a list of slots, one per element of capacity;
a slot is `none` while the storage at that offset is uninitialized and
`some x` while a live (constructed) element with value `x` occupies it.
The null buffer of a capacity-0 block is the empty list.

Placement construction, assignment and destruction become slot updates;
`std::uninitialized_copy_n` / `std::uninitialized_move_n` /
`std::move` / `std::move_backward` become `writeFrom`, which reads every
source slot as it was on entry — exactly the semantics those algorithms
have on disjoint ranges and in their valid overlap directions (each slot
is read before any write lands on it).

Exception paths are modelled by fallible variants (`…F`) in which the
element type's constructor/assignment can throw at a chosen step; the
result of a throw records the container state observable after
unwinding together with the number of live slots remaining in any block
at the instant it is deallocated (leak accounting).
-/

namespace AdvVec

/-- A raw storage block: one slot per element of capacity.  `none` models
uninitialized storage, `some x` a live element.  The empty list models the
null buffer (`buffer_ == nullptr`, `capacity_ == 0`). -/
structure RawMemory (α : Type) where
  buffer : List (Option α)
deriving Repr, DecidableEq

namespace RawMemory

variable {α : Type}

/-- Source `RawMemory::Capacity()`. -/
def Capacity (m : RawMemory α) : Nat := m.buffer.length

/-- The slot at offset `i` (out-of-range offsets read as uninitialized). -/
def get (m : RawMemory α) (i : Nat) : Option α := m.buffer.getD i none

/-- Source `RawMemory::RawMemory(size_t)` via `Allocate`: a fresh block of `n`
entirely uninitialized slots (`nullptr` when `n = 0`). -/
def Allocate (α : Type) (n : Nat) : RawMemory α := ⟨List.replicate n none⟩

/-- Overwrite slot `i` (placement-new, assignment, or `destroy_at` when the
new slot value is `none`). -/
def set (m : RawMemory α) (i : Nat) (x : Option α) : RawMemory α :=
  ⟨m.buffer.set i x⟩

/-- Write `n` slots read from `src` at offsets `s, s+1, …` into `dst` at
offsets `d, d+1, …`; all reads see `src` as it was on entry. -/
def writeFrom (src : RawMemory α) (s : Nat) (dst : RawMemory α) (d : Nat) :
    Nat → RawMemory α
  | 0 => dst
  | n + 1 => (writeFrom src s dst d n).set (d + n) (src.get (s + n))

/-- Source `std::destroy_n(m + a, n)`: slots `[a, a+n)` become uninitialized. -/
def destroyN (m : RawMemory α) (a : Nat) : Nat → RawMemory α
  | 0 => m
  | n + 1 => (m.destroyN a n).set (a + n) none

/-- Source `std::uninitialized_value_construct_n` with the element type's value
construction abstracted as the value `x`: slots `[a, a+n)` become live. -/
def constructN (m : RawMemory α) (a : Nat) (x : α) : Nat → RawMemory α
  | 0 => m
  | n + 1 => (m.constructN a x n).set (a + n) (some x)

/-- Effect on a SOURCE range of moving-from its elements one by one: each
slot in `[a, a+n)` stays live but its value becomes the moved-from state,
abstracted by `hollow` applied to the original value (all reads see the
block as it was on entry; each source is moved from exactly once). -/
def hollowN (m : RawMemory α) (hollow : α → α) (a : Nat) : Nat → RawMemory α
  | 0 => m
  | n + 1 => (m.hollowN hollow a n).set (a + n) ((m.get (a + n)).map hollow)

/-- Number of live (constructed, not yet destroyed) slots in the block. -/
def liveCount (m : RawMemory α) : Nat := (m.buffer.filterMap id).length

end RawMemory

/-- Source `Vector<T>`: one exclusively-owned raw block plus the count of live
elements.  (`data_`, `size_` in the source.) -/
structure Vector (α : Type) where
  data : RawMemory α
  size : Nat
deriving Repr, DecidableEq

namespace Vector

variable {α : Type}

/-- Source `Vector::Capacity()`. -/
def Capacity (v : Vector α) : Nat := v.data.Capacity

/-- Source `Vector::Size()`. -/
def Size (v : Vector α) : Nat := v.size

/-- The slot at index `i` of the vector's block. -/
def get (v : Vector α) (i : Nat) : Option α := v.data.get i

/-- The class invariant: `size ≤ capacity`, slots `[0, size)` are live and
slots `[size, capacity)` are uninitialized. -/
def Wf (v : Vector α) : Prop :=
  v.size ≤ v.Capacity ∧
    ∀ i < v.Capacity, (v.get i).isSome = decide (i < v.size)

instance (v : Vector α) : Decidable v.Wf := by
  unfold Wf
  infer_instance

/-- Source `Vector::Vector()`: the default-constructed empty vector. -/
def empty (α : Type) : Vector α := ⟨⟨[]⟩, 0⟩

/-- Source `explicit Vector(size_t size)`: allocate `size` slots, then
`std::uninitialized_value_construct_n(data_.GetAddress(), size)`; the
element type's value construction is abstracted as the value `dflt`. -/
def ofSize (α : Type) (dflt : α) (n : Nat) : Vector α :=
  ⟨(RawMemory.Allocate α n).constructN 0 dflt n, n⟩

/-- Source `Vector(const Vector&)`: a fresh block of capacity `other.size_`,
filled by `std::uninitialized_copy_n` from `other`. -/
def copyCtor (other : Vector α) : Vector α :=
  ⟨RawMemory.writeFrom other.data 0 (RawMemory.Allocate α other.size) 0
      other.size,
    other.size⟩

/-- Source `Vector(Vector&&)`: steal the block and size; the source is left with
the null buffer, capacity 0 and size 0.  Returns
(new destination, source after the move). -/
def moveCtor (other : Vector α) : Vector α × Vector α :=
  (⟨other.data, other.size⟩, ⟨⟨[]⟩, 0⟩)

/-- Source `Vector::Reserve`. -/
def Reserve (v : Vector α) (newCapacity : Nat) : Vector α :=
  if newCapacity ≤ v.Capacity then v
  else
    ⟨RawMemory.writeFrom v.data 0 (RawMemory.Allocate α newCapacity) 0 v.size,
      v.size⟩

/-- Live count of the block `Reserve` relinquishes, at the instant the
local `new_data` (holding the old block after the `Swap`) is destroyed:
the code ran `std::destroy_n(data_.GetAddress(), size_)` on it first. -/
def ReserveDeallocLive (v : Vector α) : Nat :=
  ((v.data.destroyN 0 v.size)).liveCount

/-- Source `Vector::Resize`; default construction of new tail elements is
abstracted as the value `dflt`. -/
def Resize (v : Vector α) (dflt : α) (newSize : Nat) : Vector α :=
  if newSize < v.size then
    ⟨v.data.destroyN newSize (v.size - newSize), newSize⟩
  else
    ⟨(v.Reserve newSize).data.constructN v.size dflt (newSize - v.size),
      newSize⟩

/-- Source `Vector::EmplaceBackImpl` (the element constructed from `args...` is
abstracted as the value `x`). -/
def EmplaceBackImpl (v : Vector α) (x : α) : Vector α :=
  if v.size < v.Capacity then
    ⟨v.data.set v.size (some x), v.size + 1⟩
  else
    ⟨RawMemory.writeFrom v.data 0
        ((RawMemory.Allocate α (if v.size = 0 then 1 else v.size * 2)).set
          v.size (some x))
        0 v.size,
      v.size + 1⟩

/-- Source `Vector::PushBack` (both overloads construct from `value`). -/
def PushBack (v : Vector α) (x : α) : Vector α := v.EmplaceBackImpl x

/-- Source `Vector::EmplaceBack`. -/
def EmplaceBack (v : Vector α) (x : α) : Vector α := v.EmplaceBackImpl x

/-- Source `Vector::PopBack` (precondition `size_ != 0` is asserted, and appears
as a hypothesis of the theorems). -/
def PopBack (v : Vector α) : Vector α :=
  ⟨v.data.set (v.size - 1) none, v.size - 1⟩

/-- Source `Vector::Emplace` at index `p = pos - begin()`; returns the new state
and the index of the returned iterator. -/
def Emplace (v : Vector α) (p : Nat) (x : α) : Vector α × Nat :=
  if v.size < v.Capacity then
    if p = v.size then
      (⟨v.data.set v.size (some x), v.size + 1⟩, p)
    else
      let d1 := v.data.set v.size (v.data.get (v.size - 1))
      let d2 := RawMemory.writeFrom d1 p d1 (p + 1) (v.size - 1 - p)
      (⟨d2.set p (some x), v.size + 1⟩, p)
  else
    let nd0 := (RawMemory.Allocate α (if v.size = 0 then 1 else v.size * 2)).set
      p (some x)
    let nd1 := RawMemory.writeFrom v.data 0 nd0 0 p
    let nd2 := RawMemory.writeFrom v.data p nd1 (p + 1) (v.size - p)
    (⟨nd2, v.size + 1⟩, p)

/-- Source `Vector::Insert` (both overloads delegate to `Emplace`). -/
def Insert (v : Vector α) (p : Nat) (x : α) : Vector α × Nat := v.Emplace p x

/-- Source `Vector::Erase` at index `p = pos - begin()` (precondition
`begin() ≤ pos < end()` appears as a hypothesis of the theorems);
returns the new state and the index of the returned iterator. -/
def Erase (v : Vector α) (p : Nat) : Vector α × Nat :=
  let d := if p ≠ v.size - 1 then
      RawMemory.writeFrom v.data (p + 1) v.data p (v.size - 1 - p)
    else v.data
  (⟨d.set (v.size - 1) none, v.size - 1⟩, p)

/-- Source `operator=(const Vector&)`.  The pointer identity test `this != &rhs`
is modelled by the flag `isSelf`. -/
def copyAssign (v rhs : Vector α) (isSelf : Bool) : Vector α :=
  if isSelf then v
  else if v.Capacity < rhs.size then copyCtor rhs
  else if rhs.size < v.size then
    ⟨(RawMemory.writeFrom rhs.data 0 v.data 0 rhs.size).destroyN rhs.size
        (v.size - rhs.size),
      rhs.size⟩
  else
    ⟨RawMemory.writeFrom rhs.data v.size
        (RawMemory.writeFrom rhs.data 0 v.data 0 v.size) v.size
        (rhs.size - v.size),
      rhs.size⟩

/-- Source `operator=(Vector&&)` (pointer identity test modelled by `isSelf`):
returns (new target, source after the move). -/
def moveAssign (v rhs : Vector α) (isSelf : Bool) : Vector α × Vector α :=
  if isSelf then (v, rhs) else (⟨rhs.data, rhs.size⟩, ⟨⟨[]⟩, 0⟩)

/-- Source `operator=(Vector&&)` instrumented with the number of live slots still
in the target's old block at the instant `RawMemory::operator=(RawMemory&&)`
calls `Deallocate(buffer_)` on it (the move-assignment chain runs no
element destructor before that call). -/
def moveAssignInstr (v rhs : Vector α) (isSelf : Bool) :
    (Vector α × Vector α) × Nat :=
  if isSelf then ((v, rhs), 0)
  else ((⟨rhs.data, rhs.size⟩, ⟨⟨[]⟩, 0⟩), v.data.liveCount)

/-- Source `Vector::Swap`: exchanges blocks and sizes. -/
def Swap (v other : Vector α) : Vector α × Vector α :=
  (⟨other.data, other.size⟩, ⟨v.data, v.size⟩)

end Vector

/-- The compile-time element-type properties tested by the `if constexpr`
in `UninitializedMoveOrCopy(N)`. -/
structure Traits where
  nothrowMoveConstructible : Bool
  copyConstructible : Bool
deriving Repr, DecidableEq

/-- The `if constexpr` dispatch of `UninitializedMoveOrCopy(N)`:
`std::uninitialized_move` is chosen exactly when
`std::is_nothrow_move_constructible_v<T> || !std::is_copy_constructible_v<T>`
holds, otherwise `std::uninitialized_copy`. -/
def useMove (tr : Traits) : Bool :=
  tr.nothrowMoveConstructible || !tr.copyConstructible

/-- State of the SOURCE range `[a, a+n)` after `n` elements were
transferred by `UninitializedMoveOrCopy(N)`: the `std::uninitialized_copy`
dispatch reads the sources without modifying them, while the
`std::uninitialized_move` dispatch leaves each transferred source live but
in its moved-from state (value abstracted by `hollow`). -/
def RawMemory.migrateSrc {α : Type} (m : RawMemory α) (tr : Traits)
    (hollow : α → α) (a n : Nat) : RawMemory α :=
  if useMove tr then m.hollowN hollow a n else m

/-- Observable outcome of an operation that throws: the container state
after unwinding, and the number of live slots left in any block at the
instant it is deallocated (leaked elements). -/
structure ThrowOut (α : Type) where
  vec : Vector α
  leaked : Nat
deriving Repr, DecidableEq

namespace Vector

variable {α : Type}

/-- Model of `EmplaceBackImpl` for a throwing element type with traits
`tr`.  `newElem` is the result of constructing the new element (`none`:
that construction throws); `migFail = some k` means the `k`-th element
migration into the new block throws (`std::uninitialized_copy_n`/`move_n`
then destroys the `k` elements it had already constructed, the `catch`
destroys the new element, and the new block is deallocated by `new_data`'s
destructor).  On a migration throw the OLD block's already-transferred
prefix `[0, k)` stays live but — under the `std::uninitialized_move_n`
dispatch — in moved-from states (`migrateSrc`). -/
def EmplaceBackF (v : Vector α) (tr : Traits) (hollow : α → α)
    (newElem : Option α) (migFail : Option Nat) :
    Except (ThrowOut α) (Vector α) :=
  if v.size < v.Capacity then
    match newElem with
    | none => .error ⟨v, 0⟩
    | some x => .ok ⟨v.data.set v.size (some x), v.size + 1⟩
  else
    let newCap := if v.size = 0 then 1 else v.size * 2
    match newElem with
    | none => .error ⟨v, (RawMemory.Allocate α newCap).liveCount⟩
    | some x =>
      let nd0 := (RawMemory.Allocate α newCap).set v.size (some x)
      match migFail with
      | some k =>
        if k < v.size then
          let nd := RawMemory.writeFrom v.data 0 nd0 0 k
          let nd := nd.destroyN 0 k
          let nd := nd.set v.size none
          .error ⟨⟨v.data.migrateSrc tr hollow 0 k, v.size⟩, nd.liveCount⟩
        else .ok ⟨RawMemory.writeFrom v.data 0 nd0 0 v.size, v.size + 1⟩
      | none => .ok ⟨RawMemory.writeFrom v.data 0 nd0 0 v.size, v.size + 1⟩

/-- The growth branch of `Emplace` (taken when `size_ == data_.Capacity()`)
for a throwing element type with traits `tr`, at insertion index `p`.  A
failure during the first migration (`migFail = some k`, `k < p`) hits the
first `try` block: the partial prefix in the new block is destroyed by
`std::uninitialized_*`, the `catch` destroys the new element.  A failure
during the second migration (`p ≤ k < size`) hits the second `try` block:
its partials are destroyed by `std::uninitialized_*`, and the `catch` runs
`std::destroy(new_data.GetAddress(), new_pos_it + 1)`.  In both cases the
transferred sources `[0, k)` of the OLD block stay live but — under the
move dispatch — moved-from (`migrateSrc`). -/
def EmplaceGrowF (v : Vector α) (tr : Traits) (hollow : α → α) (p : Nat)
    (newElem : Option α) (migFail : Option Nat) :
    Except (ThrowOut α) (Vector α) :=
  let newCap := if v.size = 0 then 1 else v.size * 2
  match newElem with
  | none => .error ⟨v, (RawMemory.Allocate α newCap).liveCount⟩
  | some x =>
    let nd0 := (RawMemory.Allocate α newCap).set p (some x)
    match migFail with
    | some k =>
      if k < p then
        let nd := RawMemory.writeFrom v.data 0 nd0 0 k
        let nd := nd.destroyN 0 k
        let nd := nd.set p none
        .error ⟨⟨v.data.migrateSrc tr hollow 0 k, v.size⟩, nd.liveCount⟩
      else if k < v.size then
        let nd := RawMemory.writeFrom v.data 0 nd0 0 p
        let nd := RawMemory.writeFrom v.data p nd (p + 1) (k - p)
        let nd := nd.destroyN (p + 1) (k - p)
        let nd := nd.destroyN 0 (p + 1)
        .error ⟨⟨v.data.migrateSrc tr hollow 0 k, v.size⟩, nd.liveCount⟩
      else
        .ok ⟨RawMemory.writeFrom v.data p
            (RawMemory.writeFrom v.data 0 nd0 0 p) (p + 1) (v.size - p),
          v.size + 1⟩
    | none =>
      .ok ⟨RawMemory.writeFrom v.data p
          (RawMemory.writeFrom v.data 0 nd0 0 p) (p + 1) (v.size - p),
        v.size + 1⟩

/-- Steps of the no-growth, interior branch of `Emplace`
(`size_ < data_.Capacity()`, `pos != end()`) at which the element type can
throw: construction of the temporary `T copy{args...}`, the `t`-th move
assignment of `std::move_backward` (the only step inside the `try`), or
the final `*pos_it = std::move(copy)` — which the source performs OUTSIDE
any `try`/`catch`. -/
inductive NoGrowStep where
  | tmp
  | shift (t : Nat)
  | assign
deriving Repr, DecidableEq

/-- Model of the no-growth, interior branch of `Emplace` for a throwing
element type.  The source's steps are: `T copy{args...}`; placement
construction of a new element at slot `size_` from `data_[size_ - 1]`;
`std::move_backward(pos_it, end() - 1, end())` guarded by the sole
`try`/`catch`, whose handler destroys slot `size_` and rethrows
(`move_backward` assigns destinations from `end()` downwards, so after `t`
completed steps the destinations `[size - t, size)` hold their left
neighbours' values); and finally `*pos_it = std::move(copy)`, with no
handler at all — if it throws, the element constructed at slot `size_`
remains live while `size_` is never incremented. -/
def EmplaceNoGrowF (v : Vector α) (p : Nat) (x : α)
    (fail : Option NoGrowStep) : Except (ThrowOut α) (Vector α) :=
  let d1 := v.data.set v.size (v.data.get (v.size - 1))
  let d2 := RawMemory.writeFrom d1 p d1 (p + 1) (v.size - 1 - p)
  match fail with
  | some .tmp => .error ⟨v, 0⟩
  | some (.shift t) =>
    let s := RawMemory.writeFrom d1 (v.size - 1 - t) d1 (v.size - t) t
    .error ⟨⟨s.set v.size none, v.size⟩, 0⟩
  | some .assign => .error ⟨⟨d2, v.size⟩, 0⟩
  | none => .ok ⟨d2.set p (some x), v.size + 1⟩

/-- Model of `Reserve` for a failing allocator or throwing element type
with traits `tr`.  `allocOk = false`: `RawMemory new_data(new_capacity)`
throws before anything is built.  `migFail = some k` (`k < size`): the
migration throws at the `k`-th element; `std::uninitialized_*` destroys
its `k` partials in the new block and `new_data`'s destructor deallocates
it, while the transferred sources `[0, k)` of the old block stay live
but — under the move dispatch — moved-from (`migrateSrc`). -/
def ReserveF (v : Vector α) (n : Nat) (tr : Traits) (hollow : α → α)
    (allocOk : Bool) (migFail : Option Nat) :
    Except (ThrowOut α) (Vector α) :=
  if n ≤ v.Capacity then .ok v
  else if !allocOk then .error ⟨v, 0⟩
  else
    match migFail with
    | some k =>
      if k < v.size then
        let nd := RawMemory.writeFrom v.data 0 (RawMemory.Allocate α n) 0 k
        let nd := nd.destroyN 0 k
        .error ⟨⟨v.data.migrateSrc tr hollow 0 k, v.size⟩, nd.liveCount⟩
      else .ok (v.Reserve n)
    | none => .ok (v.Reserve n)

/-- Model of `Resize` for a throwing element type: `failAt = some k`
(`k < newSize - size`) means value construction of the `k`-th new tail
element throws; `std::uninitialized_value_construct_n` destroys its `k`
partials and `size_ = new_size` is never reached.  (`Reserve` is assumed
to succeed here; its failures are covered by `ReserveF`.) -/
def ResizeF (v : Vector α) (dflt : α) (newSize : Nat) (failAt : Option Nat) :
    Except (ThrowOut α) (Vector α) :=
  if newSize < v.size then
    .ok ⟨v.data.destroyN newSize (v.size - newSize), newSize⟩
  else
    let d0 := (v.Reserve newSize).data
    match failAt with
    | some k =>
      if k < newSize - v.size then
        let d := d0.constructN v.size dflt k
        let d := d.destroyN v.size k
        .error ⟨⟨d, v.size⟩, 0⟩
      else .ok ⟨d0.constructN v.size dflt (newSize - v.size), newSize⟩
    | none => .ok ⟨d0.constructN v.size dflt (newSize - v.size), newSize⟩

/-- Model of `operator=(const Vector&)` (with `this != &rhs`) for a throwing element
type.  `failAt = some k` means the `k`-th element operation of the taken
path throws.  Reallocating path: the `k`-th copy into `rhs_copy` throws,
`std::uninitialized_copy_n` destroys its `k` partials, `rhs_copy`'s
destructor frees its block and `*this` was never touched.  In-place path:
assignments `data_[i] = rhs.data_[i]` are operations `0 ≤ k < min`, and on
the growing branch tail copy constructions are operations
`size_ ≤ k < rhs.size_`; `size_ = rhs.size_` is never reached. -/
def copyAssignF (v rhs : Vector α) (failAt : Option Nat) :
    Except (ThrowOut α) (Vector α) :=
  if v.Capacity < rhs.size then
    match failAt with
    | some k =>
      if k < rhs.size then
        let nd := RawMemory.writeFrom rhs.data 0
          (RawMemory.Allocate α rhs.size) 0 k
        let nd := nd.destroyN 0 k
        .error ⟨v, nd.liveCount⟩
      else .ok (copyCtor rhs)
    | none => .ok (copyCtor rhs)
  else if rhs.size < v.size then
    match failAt with
    | some k =>
      if k < rhs.size then
        .error ⟨⟨RawMemory.writeFrom rhs.data 0 v.data 0 k, v.size⟩, 0⟩
      else
        .ok ⟨(RawMemory.writeFrom rhs.data 0 v.data 0 rhs.size).destroyN
            rhs.size (v.size - rhs.size),
          rhs.size⟩
    | none =>
      .ok ⟨(RawMemory.writeFrom rhs.data 0 v.data 0 rhs.size).destroyN
          rhs.size (v.size - rhs.size),
        rhs.size⟩
  else
    match failAt with
    | some k =>
      if k < v.size then
        .error ⟨⟨RawMemory.writeFrom rhs.data 0 v.data 0 k, v.size⟩, 0⟩
      else if k < rhs.size then
        let d := RawMemory.writeFrom rhs.data 0 v.data 0 v.size
        let d := RawMemory.writeFrom rhs.data v.size d v.size (k - v.size)
        let d := d.destroyN v.size (k - v.size)
        .error ⟨⟨d, v.size⟩, 0⟩
      else
        .ok ⟨RawMemory.writeFrom rhs.data v.size
            (RawMemory.writeFrom rhs.data 0 v.data 0 v.size) v.size
            (rhs.size - v.size),
          rhs.size⟩
    | none =>
      .ok ⟨RawMemory.writeFrom rhs.data v.size
          (RawMemory.writeFrom rhs.data 0 v.data 0 v.size) v.size
          (rhs.size - v.size),
        rhs.size⟩

end Vector

namespace Vector

variable {α : Type}

/-- What the amended claim C2 asserts about a full vector's growth paths
under thrown exceptions: a throwing construction of the new element leaves
the container bitwise unchanged; a throwing migration destroys the
new element and leaks nothing, and the old block remains the container's
storage with its size and liveness unchanged and the slots from the
failure point on untouched — bitwise unchanged on the copy dispatch
(`useMove tr = false`), while on the move dispatch the transferred prefix
is left in moved-from states. -/
def GrowthFailSpec (v : Vector α) (tr : Traits) (hollow : α → α) (x : α)
    (p k : Nat) (mf : Option Nat) : Prop :=
  v.EmplaceBackF tr hollow none mf = .error ⟨v, 0⟩ ∧
  v.EmplaceGrowF tr hollow p none mf = .error ⟨v, 0⟩ ∧
  (useMove tr = false →
    v.EmplaceBackF tr hollow (some x) (some k) = .error ⟨v, 0⟩ ∧
    v.EmplaceGrowF tr hollow p (some x) (some k) = .error ⟨v, 0⟩) ∧
  v.EmplaceBackF tr hollow (some x) (some k) =
    .error ⟨⟨v.data.migrateSrc tr hollow 0 k, v.size⟩, 0⟩ ∧
  v.EmplaceGrowF tr hollow p (some x) (some k) =
    .error ⟨⟨v.data.migrateSrc tr hollow 0 k, v.size⟩, 0⟩ ∧
  (⟨v.data.migrateSrc tr hollow 0 k, v.size⟩ : Vector α).Wf ∧
  (∀ i, k ≤ i → (v.data.migrateSrc tr hollow 0 k).get i = v.get i) ∧
  (∀ i, ((v.data.migrateSrc tr hollow 0 k).get i).isSome = (v.get i).isSome)

/-- What the amended claim C3 asserts about `Reserve`: unchanged when no
growth is needed; exact capacity, preserved size/values and old elements
destroyed on success; move-iff dispatch; bitwise unchanged on allocation
failure and on copy-dispatch migration failure; on move-dispatch
migration failure size, capacity and liveness are unchanged and the slots
from the failure point on are untouched, the transferred prefix being left
in moved-from states. -/
def ReserveSpec (v : Vector α) (n k : Nat) (tr : Traits) (hollow : α → α)
    (mf : Option Nat) : Prop :=
  (n ≤ v.Capacity → v.Reserve n = v) ∧
  (v.Capacity < n →
    (v.Reserve n).Capacity = n ∧
    (v.Reserve n).size = v.size ∧
    (∀ i, (v.Reserve n).get i = v.get i) ∧
    (v.Reserve n).Wf ∧
    v.ReserveDeallocLive = 0) ∧
  (useMove tr = true ↔
    (tr.nothrowMoveConstructible = true ∨ tr.copyConstructible = false)) ∧
  (v.Capacity < n → v.ReserveF n tr hollow false mf = .error ⟨v, 0⟩) ∧
  (v.Capacity < n → k < v.size →
    (useMove tr = false →
      v.ReserveF n tr hollow true (some k) = .error ⟨v, 0⟩) ∧
    v.ReserveF n tr hollow true (some k) =
      .error ⟨⟨v.data.migrateSrc tr hollow 0 k, v.size⟩, 0⟩ ∧
    (⟨v.data.migrateSrc tr hollow 0 k, v.size⟩ : Vector α).Wf ∧
    (∀ i, k ≤ i → (v.data.migrateSrc tr hollow 0 k).get i = v.get i) ∧
    (∀ i, ((v.data.migrateSrc tr hollow 0 k).get i).isSome =
      (v.get i).isSome))

/-- What claim C4 asserts about copy assignment (with `this != &rhs`):
success values, the reallocating path's strong guarantee, and the in-place
path's basic guarantee with its partially-updated-but-valid failure states. -/
def CopyAssignSpec (v rhs : Vector α) (k : Nat) : Prop :=
  ((copyAssign v rhs false).size = rhs.size ∧
   (∀ i, i < rhs.size → (copyAssign v rhs false).get i = rhs.get i) ∧
   (copyAssign v rhs false).Capacity =
     (if v.Capacity < rhs.size then rhs.size else v.Capacity) ∧
   (copyAssign v rhs false).Wf) ∧
  (v.Capacity < rhs.size → k < rhs.size →
    v.copyAssignF rhs (some k) = .error ⟨v, 0⟩) ∧
  (rhs.size ≤ v.Capacity → k < min v.size rhs.size →
    v.copyAssignF rhs (some k) =
      .error ⟨⟨RawMemory.writeFrom rhs.data 0 v.data 0 k, v.size⟩, 0⟩ ∧
    (∀ i, (⟨RawMemory.writeFrom rhs.data 0 v.data 0 k, v.size⟩ :
        Vector α).get i = if i < k then rhs.get i else v.get i) ∧
    (⟨RawMemory.writeFrom rhs.data 0 v.data 0 k, v.size⟩ : Vector α).Wf) ∧
  (rhs.size ≤ v.Capacity → v.size ≤ k → k < rhs.size →
    match v.copyAssignF rhs (some k) with
    | .error out => out.vec.size = v.size ∧ out.leaked = 0 ∧ out.vec.Wf ∧
        ∀ i, out.vec.get i = if i < v.size then rhs.get i else none
    | .ok _ => False)

/-- What claim C5 asserts: on growth the new block's capacity is
`max(1, 2 * old_capacity)`. -/
def GrowthPolicySpec (v : Vector α) (x : α) (p : Nat) : Prop :=
  (v.EmplaceBackImpl x).Capacity = max 1 (2 * v.Capacity) ∧
  (v.PushBack x).Capacity = max 1 (2 * v.Capacity) ∧
  (v.EmplaceBack x).Capacity = max 1 (2 * v.Capacity) ∧
  (v.Emplace p x).1.Capacity = max 1 (2 * v.Capacity) ∧
  (v.Insert p x).1.Capacity = max 1 (2 * v.Capacity)

/-- What claim C6 asserts about `Insert`/`Emplace`/`Erase` and their
round trip. -/
def InsertEraseSpec (v : Vector α) (p q : Nat) (x : α) : Prop :=
  ((v.Emplace p x).1.size = v.size + 1 ∧
   (v.Emplace p x).2 = p ∧
   (v.Emplace p x).1.get p = some x ∧
   (∀ i, i < p → (v.Emplace p x).1.get i = v.get i) ∧
   (∀ i, p ≤ i → i < v.size → (v.Emplace p x).1.get (i + 1) = v.get i) ∧
   v.Insert p x = v.Emplace p x) ∧
  ((v.Erase q).1.size = v.size - 1 ∧
   (v.Erase q).2 = q ∧
   (∀ i, i < q → (v.Erase q).1.get i = v.get i) ∧
   (∀ i, q ≤ i → i < v.size - 1 → (v.Erase q).1.get i = v.get (i + 1))) ∧
  (((v.Emplace p x).1.Erase p).1.size = v.size ∧
   ∀ i, ((v.Emplace p x).1.Erase p).1.get i = v.get i)

/-- What claim C8 asserts about `Resize`. -/
def ResizeSpec (v : Vector α) (dflt : α) (n k : Nat) : Prop :=
  (v.Resize dflt n).size = n ∧
  (v.Resize dflt n).Wf ∧
  (n < v.size →
    (∀ i, i < n → (v.Resize dflt n).get i = v.get i) ∧
    (∀ i, n ≤ i → (v.Resize dflt n).get i = none) ∧
    (v.Resize dflt n).Capacity = v.Capacity) ∧
  (v.size ≤ n →
    n ≤ (v.Resize dflt n).Capacity ∧
    (∀ i, i < v.size → (v.Resize dflt n).get i = v.get i) ∧
    (∀ i, v.size ≤ i → i < n → (v.Resize dflt n).get i = some dflt)) ∧
  (v.size ≤ n → k < n - v.size →
    match v.ResizeF dflt n (some k) with
    | .error out => out.vec.size = v.size ∧ out.leaked = 0 ∧
        (∀ i, out.vec.get i = v.get i) ∧ out.vec.Wf
    | .ok _ => False)


end Vector

namespace RawMemory

variable {α : Type}

@[simp] theorem Capacity_Allocate (n : Nat) : (Allocate α n).Capacity = n := by
  simp [Allocate, Capacity]

@[simp] theorem get_Allocate (n i : Nat) : (Allocate α n).get i = none := by
  unfold Allocate get
  induction n generalizing i with
  | zero => simp
  | succ n ih =>
    cases i with
    | zero => simp [List.replicate]
    | succ j => simp [List.replicate, ih j]

@[simp] theorem Capacity_set (m : RawMemory α) (i : Nat) (x : Option α) :
    (m.set i x).Capacity = m.Capacity := by
  simp [set, Capacity]

theorem getD_set (l : List (Option α)) (j i : Nat) (x : Option α) :
    (l.set j x).getD i none =
      if i = j ∧ j < l.length then x else l.getD i none := by
  induction l generalizing i j with
  | nil => simp
  | cons a t ih =>
    cases j with
    | zero =>
      cases i with
      | zero => simp
      | succ i' => simp
    | succ j' =>
      cases i with
      | zero => simp
      | succ i' =>
        simp only [List.set_cons_succ, List.getD_cons_succ, List.length_cons, ih]
        by_cases h : i' = j' ∧ j' < t.length
        · rw [if_pos h, if_pos ⟨by omega, by omega⟩]
        · rw [if_neg h, if_neg (by omega)]

theorem get_set (m : RawMemory α) (j i : Nat) (x : Option α) :
    (m.set j x).get i =
      if i = j ∧ j < m.Capacity then x else m.get i := by
  unfold set get Capacity
  exact getD_set m.buffer j i x

theorem get_of_Capacity_le (m : RawMemory α) (i : Nat) (h : m.Capacity ≤ i) :
    m.get i = none := by
  unfold Capacity at h
  unfold get
  exact List.getD_eq_default m.buffer none h

@[simp] theorem Capacity_writeFrom (src : RawMemory α) (s : Nat)
    (dst : RawMemory α) (d n : Nat) :
    (writeFrom src s dst d n).Capacity = dst.Capacity := by
  induction n with
  | zero => rfl
  | succ n ih => simp [writeFrom, ih]

theorem get_writeFrom (src : RawMemory α) (s : Nat) (dst : RawMemory α)
    (d n i : Nat) :
    (writeFrom src s dst d n).get i =
      if d ≤ i ∧ i < d + n ∧ i < dst.Capacity then src.get (s + (i - d))
      else dst.get i := by
  induction n with
  | zero =>
    simp only [writeFrom]
    rw [if_neg (by omega)]
  | succ n ih =>
    simp only [writeFrom, get_set, Capacity_writeFrom, ih]
    by_cases h1 : i = d + n ∧ d + n < dst.Capacity
    · rw [if_pos h1, if_pos ⟨by omega, by omega, by omega⟩]
      congr 1
      omega
    · rw [if_neg h1]
      by_cases h2 : d ≤ i ∧ i < d + n ∧ i < dst.Capacity
      · rw [if_pos h2, if_pos ⟨by omega, by omega, by omega⟩]
      · rw [if_neg h2]
        by_cases h3 : d ≤ i ∧ i < d + (n + 1) ∧ i < dst.Capacity
        · exfalso
          omega
        · rw [if_neg h3]

@[simp] theorem Capacity_destroyN (m : RawMemory α) (a n : Nat) :
    (m.destroyN a n).Capacity = m.Capacity := by
  induction n with
  | zero => rfl
  | succ n ih => simp [destroyN, ih]

theorem get_destroyN (m : RawMemory α) (a n i : Nat) :
    (m.destroyN a n).get i =
      if a ≤ i ∧ i < a + n then none else m.get i := by
  induction n with
  | zero =>
    simp only [destroyN]
    rw [if_neg (by omega)]
  | succ n ih =>
    simp only [destroyN, get_set, Capacity_destroyN, ih]
    by_cases h1 : i = a + n ∧ a + n < m.Capacity
    · rw [if_pos h1, if_pos ⟨by omega, by omega⟩]
    · rw [if_neg h1]
      by_cases h2 : a ≤ i ∧ i < a + n
      · rw [if_pos h2, if_pos ⟨by omega, by omega⟩]
      · rw [if_neg h2]
        by_cases h3 : a ≤ i ∧ i < a + (n + 1)
        · rw [if_pos h3]
          have hi : i = a + n := by omega
          have hcap : m.Capacity ≤ i := by omega
          rw [get_of_Capacity_le m i hcap]
        · rw [if_neg h3]

@[simp] theorem Capacity_constructN (m : RawMemory α) (a : Nat) (x : α) (n : Nat) :
    (m.constructN a x n).Capacity = m.Capacity := by
  induction n with
  | zero => rfl
  | succ n ih => simp [constructN, ih]

theorem get_constructN (m : RawMemory α) (a : Nat) (x : α) (n i : Nat) :
    (m.constructN a x n).get i =
      if a ≤ i ∧ i < a + n ∧ i < m.Capacity then some x else m.get i := by
  induction n with
  | zero =>
    simp only [constructN]
    rw [if_neg (by omega)]
  | succ n ih =>
    simp only [constructN, get_set, Capacity_constructN, ih]
    by_cases h1 : i = a + n ∧ a + n < m.Capacity
    · rw [if_pos h1, if_pos ⟨by omega, by omega, by omega⟩]
    · rw [if_neg h1]
      by_cases h2 : a ≤ i ∧ i < a + n ∧ i < m.Capacity
      · rw [if_pos h2, if_pos ⟨by omega, by omega, by omega⟩]
      · rw [if_neg h2, if_neg (by omega)]

theorem liveCount_eq_zero_aux (l : List (Option α))
    (h : ∀ i, l.getD i none = none) : (l.filterMap id).length = 0 := by
  induction l with
  | nil => simp
  | cons a t ih =>
    have h0 : a = none := by simpa using h 0
    subst h0
    simpa using ih (fun i => by simpa using h (i + 1))

theorem liveCount_eq_zero (m : RawMemory α) (h : ∀ i, m.get i = none) :
    m.liveCount = 0 :=
  liveCount_eq_zero_aux m.buffer h

@[simp] theorem Capacity_hollowN (m : RawMemory α) (hollow : α → α)
    (a n : Nat) : (m.hollowN hollow a n).Capacity = m.Capacity := by
  induction n with
  | zero => rfl
  | succ n ih => simp [hollowN, ih]

theorem get_hollowN (m : RawMemory α) (hollow : α → α) (a n i : Nat) :
    (m.hollowN hollow a n).get i =
      if a ≤ i ∧ i < a + n then (m.get i).map hollow else m.get i := by
  induction n with
  | zero =>
    simp only [hollowN]
    rw [if_neg (by omega)]
  | succ n ih =>
    simp only [hollowN, get_set, Capacity_hollowN, ih]
    by_cases h1 : i = a + n ∧ a + n < m.Capacity
    · rw [if_pos h1, if_pos (by omega)]
      rw [h1.1]
    · rw [if_neg h1]
      by_cases h2 : a ≤ i ∧ i < a + n
      · rw [if_pos h2, if_pos (by omega)]
      · rw [if_neg h2]
        by_cases h3 : a ≤ i ∧ i < a + (n + 1)
        · rw [if_pos h3]
          have hi : i = a + n := by omega
          have hcap : m.Capacity ≤ i := by omega
          rw [get_of_Capacity_le m i hcap]
          rfl
        · rw [if_neg h3]

@[simp] theorem Capacity_migrateSrc (m : RawMemory α) (tr : Traits)
    (hollow : α → α) (a n : Nat) :
    (m.migrateSrc tr hollow a n).Capacity = m.Capacity := by
  unfold migrateSrc
  split <;> simp

theorem get_migrateSrc (m : RawMemory α) (tr : Traits) (hollow : α → α)
    (a n i : Nat) :
    (m.migrateSrc tr hollow a n).get i =
      if useMove tr = true ∧ a ≤ i ∧ i < a + n then (m.get i).map hollow
      else m.get i := by
  unfold migrateSrc
  split
  · rename_i h
    rw [get_hollowN]
    by_cases h2 : a ≤ i ∧ i < a + n
    · rw [if_pos h2, if_pos ⟨h, h2.1, h2.2⟩]
    · rw [if_neg h2, if_neg (by tauto)]
  · rename_i h
    rw [if_neg (by simp at h; simp [h])]

theorem migrateSrc_of_copy (m : RawMemory α) (tr : Traits) (hollow : α → α)
    (a n : Nat) (h : useMove tr = false) :
    m.migrateSrc tr hollow a n = m := by
  unfold migrateSrc
  rw [h]
  rfl

theorem isSome_get_migrateSrc (m : RawMemory α) (tr : Traits)
    (hollow : α → α) (a n i : Nat) :
    ((m.migrateSrc tr hollow a n).get i).isSome = (m.get i).isSome := by
  rw [get_migrateSrc]
  split_ifs
  · cases m.get i <;> rfl
  · rfl

theorem get_migrateSrc_out (m : RawMemory α) (tr : Traits) (hollow : α → α)
    (a n i : Nat) (h : ¬ (a ≤ i ∧ i < a + n)) :
    (m.migrateSrc tr hollow a n).get i = m.get i := by
  rw [get_migrateSrc]
  rw [if_neg (fun hc => h ⟨hc.2.1, hc.2.2⟩)]

end RawMemory

namespace Vector

variable {α : Type}

theorem Wf.size_le {v : Vector α} (h : v.Wf) : v.size ≤ v.Capacity := h.1

theorem Wf.get_eq_none {v : Vector α} (h : v.Wf) {i : Nat}
    (hi : v.size ≤ i) : v.get i = none := by
  by_cases hc : i < v.Capacity
  · have hs := h.2 i hc
    rw [decide_eq_false (by omega)] at hs
    cases hg : v.get i with
    | none => rfl
    | some a => rw [hg] at hs; simp at hs
  · have hcap : v.data.Capacity = v.Capacity := rfl
    exact RawMemory.get_of_Capacity_le v.data i (by omega)

theorem Wf.get_isSome {v : Vector α} (h : v.Wf) {i : Nat}
    (hi : i < v.size) : (v.get i).isSome = true := by
  have hc : i < v.Capacity := by have := h.1; omega
  have := h.2 i hc
  rwa [decide_eq_true (by omega)] at this

theorem Wf_of_get (v : Vector α) (h1 : v.size ≤ v.Capacity)
    (h2 : ∀ i, i < v.size → (v.get i).isSome = true)
    (h3 : ∀ i, v.size ≤ i → i < v.Capacity → v.get i = none) : v.Wf := by
  refine ⟨h1, fun i hi => ?_⟩
  by_cases h : i < v.size
  · rw [h2 i h, decide_eq_true h]
  · rw [h3 i (by omega) hi, decide_eq_false h]
    rfl

@[simp] theorem empty_size : (empty α).size = 0 := rfl

@[simp] theorem empty_Capacity : (empty α).Capacity = 0 := rfl

theorem Wf_empty : (empty α).Wf := by
  refine ⟨Nat.le_refl 0, fun i hi => ?_⟩
  simp [empty, Capacity, RawMemory.Capacity] at hi

@[simp] theorem ofSize_size (dflt : α) (n : Nat) :
    (ofSize α dflt n).size = n := rfl

@[simp] theorem ofSize_Capacity (dflt : α) (n : Nat) :
    (ofSize α dflt n).Capacity = n := by
  simp [ofSize, Capacity]

theorem ofSize_get (dflt : α) (n i : Nat) :
    (ofSize α dflt n).get i = if i < n then some dflt else none := by
  simp only [ofSize, get, RawMemory.get_constructN, RawMemory.get_Allocate,
    RawMemory.Capacity_Allocate]
  split_ifs <;> first | rfl | omega

theorem Wf_ofSize (dflt : α) (n : Nat) : (ofSize α dflt n).Wf := by
  refine Wf_of_get _ (by simp) (fun i hi => ?_) (fun i hi _ => ?_)
  · rw [ofSize_get]
    rw [if_pos (by simpa using hi)]
    rfl
  · rw [ofSize_get]
    rw [if_neg (by simp at hi ⊢; omega)]

@[simp] theorem copyCtor_size (other : Vector α) :
    (copyCtor other).size = other.size := rfl

@[simp] theorem copyCtor_Capacity (other : Vector α) :
    (copyCtor other).Capacity = other.size := by
  simp [copyCtor, Capacity]

theorem copyCtor_get (other : Vector α) (i : Nat) :
    (copyCtor other).get i =
      if i < other.size then other.get i else none := by
  simp only [copyCtor, get, RawMemory.get_writeFrom, RawMemory.get_Allocate,
    RawMemory.Capacity_Allocate]
  split_ifs <;> first | (congr 1 <;> omega) | rfl | omega

theorem Wf_copyCtor (other : Vector α) (hw : other.Wf) : (copyCtor other).Wf := by
  refine Wf_of_get _ (by simp) (fun i hi => ?_) (fun i hi _ => ?_)
  · rw [copyCtor_get, if_pos (by simpa using hi)]
    exact hw.get_isSome (by simpa using hi)
  · rw [copyCtor_get, if_neg (by simp at hi ⊢; omega)]

@[simp] theorem Reserve_size (v : Vector α) (n : Nat) :
    (v.Reserve n).size = v.size := by
  unfold Reserve
  split <;> rfl

theorem Reserve_Capacity (v : Vector α) (n : Nat) :
    (v.Reserve n).Capacity = max v.Capacity n := by
  unfold Reserve
  split
  · rename_i h
    unfold Capacity at h ⊢
    omega
  · rename_i h
    unfold Capacity at h ⊢
    simp only [RawMemory.Capacity_writeFrom, RawMemory.Capacity_Allocate]
    omega

theorem Reserve_get (v : Vector α) (hw : v.Wf) (n i : Nat) :
    (v.Reserve n).get i = v.get i := by
  unfold Reserve
  split
  · rfl
  · rename_i hgt
    have hsz : v.size ≤ v.data.Capacity := hw.1
    have hgt' : ¬ n ≤ v.data.Capacity := hgt
    simp only [get, RawMemory.get_writeFrom, RawMemory.get_Allocate,
      RawMemory.Capacity_Allocate]
    split_ifs with h
    · congr 1
      omega
    · by_cases hi : i < v.size
      · exfalso
        omega
      · exact (hw.get_eq_none (by omega)).symm

theorem Wf_Reserve (v : Vector α) (hw : v.Wf) (n : Nat) : (v.Reserve n).Wf := by
  refine Wf_of_get _ ?_ (fun i hi => ?_) (fun i hi _ => ?_)
  · rw [Reserve_Capacity, Reserve_size]
    have := hw.1
    omega
  · rw [Reserve_get v hw]
    exact hw.get_isSome (by simpa using hi)
  · rw [Reserve_get v hw]
    exact hw.get_eq_none (by simpa using hi)

/-- Lemma: `Reserve` leaves no live element in the block it relinquishes. -/
theorem ReserveDeallocLive_eq_zero (v : Vector α) (hw : v.Wf) :
    v.ReserveDeallocLive = 0 := by
  apply RawMemory.liveCount_eq_zero
  intro i
  rw [RawMemory.get_destroyN]
  split_ifs with h
  · rfl
  · exact hw.get_eq_none (by omega)

@[simp] theorem Resize_size (v : Vector α) (dflt : α) (n : Nat) :
    (v.Resize dflt n).size = n := by
  unfold Resize
  split <;> rfl

theorem Resize_Capacity (v : Vector α) (dflt : α) (n : Nat) :
    (v.Resize dflt n).Capacity =
      if n < v.size then v.Capacity else max v.Capacity n := by
  unfold Resize
  split
  · simp [Capacity]
  · show ((v.Reserve n).data.constructN v.size dflt (n - v.size)).Capacity =
      max v.Capacity n
    rw [RawMemory.Capacity_constructN]
    exact Reserve_Capacity v n

theorem Resize_get (v : Vector α) (hw : v.Wf) (dflt : α) (n i : Nat) :
    (v.Resize dflt n).get i =
      if i < min n v.size then v.get i
      else if i < n then some dflt
      else none := by
  have hsz : v.size ≤ v.Capacity := hw.1
  unfold Resize
  split
  · rename_i hlt
    simp only [get, RawMemory.get_destroyN]
    split_ifs <;>
      first
        | rfl
        | (exfalso; omega)
        | exact hw.get_eq_none (by omega)
  · rename_i hge
    have hcap : (v.Reserve n).data.Capacity = max v.Capacity n := by
      have := Reserve_Capacity v n
      unfold Capacity at this
      exact this
    have hget : ∀ j, (v.Reserve n).data.get j = v.get j := fun j =>
      Reserve_get v hw n j
    simp only [get, RawMemory.get_constructN, hcap, hget]
    split_ifs <;>
      first
        | rfl
        | (exfalso; omega)
        | exact hw.get_eq_none (by omega)

theorem Wf_Resize (v : Vector α) (hw : v.Wf) (dflt : α) (n : Nat) :
    (v.Resize dflt n).Wf := by
  have hsz : v.size ≤ v.Capacity := hw.1
  refine Wf_of_get _ ?_ (fun i hi => ?_) (fun i hi _ => ?_)
  · rw [Resize_Capacity, Resize_size]
    split_ifs <;> omega
  · rw [Resize_get v hw]
    rw [Resize_size] at hi
    split_ifs <;>
      first
        | rfl
        | (exfalso; omega)
        | exact hw.get_isSome (by omega)
  · rw [Resize_get v hw]
    rw [Resize_size] at hi
    rw [if_neg (by omega), if_neg (by omega)]

@[simp] theorem EmplaceBackImpl_size (v : Vector α) (x : α) :
    (v.EmplaceBackImpl x).size = v.size + 1 := by
  unfold EmplaceBackImpl
  split <;> rfl

theorem EmplaceBackImpl_Capacity (v : Vector α) (x : α) :
    (v.EmplaceBackImpl x).Capacity =
      if v.size < v.Capacity then v.Capacity
      else if v.size = 0 then 1 else v.size * 2 := by
  unfold EmplaceBackImpl
  split
  · show (v.data.set v.size (some x)).Capacity = v.Capacity
    rw [RawMemory.Capacity_set]
    rfl
  · show (RawMemory.writeFrom _ _ _ _ _).Capacity = _
    simp only [RawMemory.Capacity_writeFrom, RawMemory.Capacity_set,
      RawMemory.Capacity_Allocate]

theorem EmplaceBackImpl_get (v : Vector α) (hw : v.Wf) (x : α) (i : Nat) :
    (v.EmplaceBackImpl x).get i =
      if i < v.size then v.get i
      else if i = v.size then some x
      else none := by
  have hsz : v.size ≤ v.data.Capacity := hw.1
  unfold EmplaceBackImpl
  split
  · rename_i hlt
    have hlt' : v.size < v.data.Capacity := hlt
    simp only [get, RawMemory.get_set]
    split_ifs <;>
      first
        | rfl
        | (exfalso; omega)
        | exact hw.get_eq_none (by omega)
  · rename_i hge
    have hge' : ¬ v.size < v.data.Capacity := hge
    set c := if v.size = 0 then 1 else v.size * 2 with hc
    have hcc : v.size < c := by
      rw [hc]
      split_ifs <;> omega
    simp only [get, RawMemory.get_writeFrom, RawMemory.get_set,
      RawMemory.get_Allocate, RawMemory.Capacity_set,
      RawMemory.Capacity_Allocate]
    split_ifs <;>
      first
        | rfl
        | (congr 1 <;> omega)
        | (exfalso; omega)
        | exact hw.get_eq_none (by omega)

theorem Wf_EmplaceBackImpl (v : Vector α) (hw : v.Wf) (x : α) :
    (v.EmplaceBackImpl x).Wf := by
  refine Wf_of_get _ ?_ (fun i hi => ?_) (fun i hi _ => ?_)
  · rw [EmplaceBackImpl_Capacity, EmplaceBackImpl_size]
    have := hw.1
    split_ifs <;> omega
  · rw [EmplaceBackImpl_size] at hi
    rw [EmplaceBackImpl_get v hw x i]
    split_ifs <;>
      first
        | rfl
        | (exact hw.get_isSome (by omega))
        | (exfalso; omega)
  · rw [EmplaceBackImpl_size] at hi
    rw [EmplaceBackImpl_get v hw x i]
    rw [if_neg (by omega), if_neg (by omega)]

@[simp] theorem PopBack_size (v : Vector α) : (v.PopBack).size = v.size - 1 :=
  rfl

@[simp] theorem PopBack_Capacity (v : Vector α) :
    (v.PopBack).Capacity = v.Capacity := by
  show (v.data.set (v.size - 1) none).Capacity = _
  rw [RawMemory.Capacity_set]
  rfl

theorem PopBack_get (v : Vector α) (hw : v.Wf) (hs : 0 < v.size) (i : Nat) :
    (v.PopBack).get i = if i < v.size - 1 then v.get i else none := by
  have hsz : v.size ≤ v.data.Capacity := hw.1
  simp only [PopBack, get, RawMemory.get_set]
  split_ifs <;>
    first
      | rfl
      | (exfalso; omega)
      | exact hw.get_eq_none (by omega)

theorem Wf_PopBack (v : Vector α) (hw : v.Wf) (hs : 0 < v.size) :
    (v.PopBack).Wf := by
  refine Wf_of_get _ ?_ (fun i hi => ?_) (fun i hi _ => ?_)
  · rw [PopBack_Capacity, PopBack_size]
    have := hw.1
    omega
  · rw [PopBack_size] at hi
    rw [PopBack_get v hw hs i, if_pos hi]
    exact hw.get_isSome (by omega)
  · rw [PopBack_size] at hi
    rw [PopBack_get v hw hs i, if_neg (by omega)]

@[simp] theorem Emplace_size (v : Vector α) (p : Nat) (x : α) :
    (v.Emplace p x).1.size = v.size + 1 := by
  unfold Emplace
  split
  · split <;> rfl
  · rfl

@[simp] theorem Emplace_idx (v : Vector α) (p : Nat) (x : α) :
    (v.Emplace p x).2 = p := by
  unfold Emplace
  split
  · split <;> rfl
  · rfl

theorem Emplace_Capacity (v : Vector α) (p : Nat) (x : α) :
    (v.Emplace p x).1.Capacity =
      if v.size < v.Capacity then v.Capacity
      else if v.size = 0 then 1 else v.size * 2 := by
  unfold Emplace
  split
  · split
    · show (v.data.set v.size (some x)).Capacity = v.Capacity
      rw [RawMemory.Capacity_set]
      rfl
    · show ((RawMemory.writeFrom _ _ _ _ _).set p (some x)).Capacity = v.Capacity
      rw [RawMemory.Capacity_set, RawMemory.Capacity_writeFrom,
        RawMemory.Capacity_set]
      rfl
  · show (RawMemory.writeFrom _ _ (RawMemory.writeFrom _ _ _ _ _) _ _).Capacity = _
    simp only [RawMemory.Capacity_writeFrom, RawMemory.Capacity_set,
      RawMemory.Capacity_Allocate]

theorem Emplace_get (v : Vector α) (hw : v.Wf) (p : Nat) (x : α)
    (hp : p ≤ v.size) (i : Nat) :
    (v.Emplace p x).1.get i =
      if i < p then v.get i
      else if i = p then some x
      else if i ≤ v.size then v.get (i - 1)
      else none := by
  have hsz : v.size ≤ v.data.Capacity := hw.1
  unfold Emplace
  split
  · rename_i hlt
    have hlt' : v.size < v.data.Capacity := hlt
    split
    · rename_i hpe
      simp only [get, RawMemory.get_set]
      split_ifs <;>
        first
          | rfl
          | (congr 1 <;> omega)
          | (exfalso; omega)
          | exact hw.get_eq_none (by omega)
    · rename_i hpe
      have hplt : p < v.size := by omega
      simp only [get, RawMemory.get_set, RawMemory.get_writeFrom,
        RawMemory.Capacity_set, RawMemory.Capacity_writeFrom]
      split_ifs <;>
        first
          | rfl
          | (congr 1 <;> omega)
          | (exfalso; omega)
          | exact hw.get_eq_none (by omega)
  · rename_i hge
    have hge' : ¬ v.size < v.data.Capacity := hge
    set c := if v.size = 0 then 1 else v.size * 2 with hc
    have hcc : v.size < c := by
      rw [hc]
      split_ifs <;> omega
    have hpc : p < c := by omega
    simp only [get, RawMemory.get_writeFrom, RawMemory.get_set,
      RawMemory.get_Allocate, RawMemory.Capacity_set,
      RawMemory.Capacity_writeFrom, RawMemory.Capacity_Allocate]
    split_ifs <;>
      first
        | rfl
        | (congr 1 <;> omega)
        | (exfalso; omega)
        | exact hw.get_eq_none (by omega)

theorem Wf_Emplace (v : Vector α) (hw : v.Wf) (p : Nat) (x : α)
    (hp : p ≤ v.size) : (v.Emplace p x).1.Wf := by
  refine Wf_of_get _ ?_ (fun i hi => ?_) (fun i hi _ => ?_)
  · rw [Emplace_Capacity, Emplace_size]
    have := hw.1
    split_ifs <;> omega
  · rw [Emplace_size] at hi
    rw [Emplace_get v hw p x hp i]
    split_ifs <;>
      first
        | rfl
        | (exact hw.get_isSome (by omega))
        | (exfalso; omega)
  · rw [Emplace_size] at hi
    rw [Emplace_get v hw p x hp i]
    rw [if_neg (by omega), if_neg (by omega), if_neg (by omega)]

@[simp] theorem Erase_size (v : Vector α) (p : Nat) :
    (v.Erase p).1.size = v.size - 1 := rfl

@[simp] theorem Erase_idx (v : Vector α) (p : Nat) : (v.Erase p).2 = p := rfl

@[simp] theorem Erase_Capacity (v : Vector α) (p : Nat) :
    (v.Erase p).1.Capacity = v.Capacity := by
  simp only [Erase]
  split
  · show (RawMemory.writeFrom _ _ _ _ _ |>.set (v.size - 1) none).Capacity = _
    rw [RawMemory.Capacity_set, RawMemory.Capacity_writeFrom]
    rfl
  · show (v.data.set (v.size - 1) none).Capacity = _
    rw [RawMemory.Capacity_set]
    rfl

theorem Erase_get (v : Vector α) (hw : v.Wf) (p : Nat) (hp : p < v.size)
    (i : Nat) :
    (v.Erase p).1.get i =
      if i < p then v.get i
      else if i < v.size - 1 then v.get (i + 1)
      else none := by
  have hsz : v.size ≤ v.data.Capacity := hw.1
  simp only [Erase]
  split
  · rename_i hne
    simp only [get, RawMemory.get_set, RawMemory.get_writeFrom,
      RawMemory.Capacity_writeFrom]
    split_ifs <;>
      first
        | rfl
        | (congr 1 <;> omega)
        | (exfalso; omega)
        | exact hw.get_eq_none (by omega)
  · rename_i hne
    have hpe : p = v.size - 1 := by omega
    simp only [get, RawMemory.get_set]
    split_ifs <;>
      first
        | rfl
        | (exfalso; omega)
        | exact hw.get_eq_none (by omega)

theorem Wf_Erase (v : Vector α) (hw : v.Wf) (p : Nat) (hp : p < v.size) :
    (v.Erase p).1.Wf := by
  refine Wf_of_get _ ?_ (fun i hi => ?_) (fun i hi _ => ?_)
  · rw [Erase_Capacity, Erase_size]
    have := hw.1
    omega
  · rw [Erase_size] at hi
    rw [Erase_get v hw p hp i]
    split_ifs <;>
      first
        | (exact hw.get_isSome (by omega))
        | (exfalso; omega)
  · rw [Erase_size] at hi
    rw [Erase_get v hw p hp i]
    rw [if_neg (by omega), if_neg (by omega)]

@[simp] theorem copyAssign_size (v rhs : Vector α) :
    (copyAssign v rhs false).size = rhs.size := by
  unfold copyAssign
  simp only [Bool.false_eq_true, if_false]
  split_ifs <;> rfl

theorem copyAssign_Capacity (v rhs : Vector α) :
    (copyAssign v rhs false).Capacity =
      if v.Capacity < rhs.size then rhs.size else v.Capacity := by
  unfold copyAssign
  simp only [Bool.false_eq_true, if_false]
  split
  · exact copyCtor_Capacity rhs
  · split
    · show (RawMemory.destroyN _ _ _).Capacity = v.Capacity
      rw [RawMemory.Capacity_destroyN, RawMemory.Capacity_writeFrom]
      rfl
    · show (RawMemory.writeFrom _ _ _ _ _).Capacity = v.Capacity
      rw [RawMemory.Capacity_writeFrom, RawMemory.Capacity_writeFrom]
      rfl

theorem copyAssign_get (v rhs : Vector α) (hw : v.Wf) (hwr : rhs.Wf)
    (i : Nat) :
    (copyAssign v rhs false).get i =
      if i < rhs.size then rhs.get i else none := by
  have hsz : v.size ≤ v.data.Capacity := hw.1
  unfold copyAssign
  simp only [Bool.false_eq_true, if_false]
  split
  · exact copyCtor_get rhs i
  · rename_i hcap
    have hcap' : ¬ v.data.Capacity < rhs.size := hcap
    split
    · rename_i hlt
      simp only [get, RawMemory.get_destroyN, RawMemory.get_writeFrom,
        RawMemory.Capacity_writeFrom]
      split_ifs <;>
        first
          | rfl
          | (congr 1 <;> omega)
          | (exfalso; omega)
          | exact hw.get_eq_none (by omega)
    · rename_i hge
      simp only [get, RawMemory.get_writeFrom, RawMemory.Capacity_writeFrom]
      split_ifs <;>
        first
          | rfl
          | (congr 1 <;> omega)
          | (exfalso; omega)
          | exact hw.get_eq_none (by omega)

theorem Wf_copyAssign (v rhs : Vector α) (hw : v.Wf) (hwr : rhs.Wf)
    (b : Bool) : (copyAssign v rhs b).Wf := by
  cases b with
  | true => exact hw
  | false =>
    refine Wf_of_get _ ?_ (fun i hi => ?_) (fun i hi _ => ?_)
    · rw [copyAssign_Capacity, copyAssign_size]
      split_ifs <;> omega
    · rw [copyAssign_size] at hi
      rw [copyAssign_get v rhs hw hwr i, if_pos hi]
      exact hwr.get_isSome hi
    · rw [copyAssign_size] at hi
      rw [copyAssign_get v rhs hw hwr i, if_neg (by omega)]

@[simp] theorem moveCtor_fst (other : Vector α) : (moveCtor other).1 = other :=
  rfl

@[simp] theorem moveCtor_snd (other : Vector α) :
    (moveCtor other).2 = empty α := rfl

@[simp] theorem moveAssign_fst (v rhs : Vector α) :
    (moveAssign v rhs false).1 = rhs := rfl

@[simp] theorem moveAssign_snd (v rhs : Vector α) :
    (moveAssign v rhs false).2 = empty α := rfl

@[simp] theorem Swap_fst (v other : Vector α) : (Swap v other).1 = other :=
  rfl

@[simp] theorem Swap_snd (v other : Vector α) : (Swap v other).2 = v := rfl

theorem liveCount_Allocate (n : Nat) : (RawMemory.Allocate α n).liveCount = 0 :=
  RawMemory.liveCount_eq_zero _ (fun i => RawMemory.get_Allocate n i)

/-- No failure injected: the fallible append coincides with the pure one. -/
theorem EmplaceBackF_ok (v : Vector α) (tr : Traits) (hollow : α → α)
    (x : α) :
    v.EmplaceBackF tr hollow (some x) none = .ok (v.EmplaceBackImpl x) := by
  unfold EmplaceBackF EmplaceBackImpl
  split <;> rfl

/-- Constructing the new element throws: the container is unchanged and
nothing leaks (in the growth case the discarded block holds no live slot). -/
theorem EmplaceBackF_newThrow (v : Vector α) (tr : Traits) (hollow : α → α)
    (mf : Option Nat) :
    v.EmplaceBackF tr hollow none mf = .error ⟨v, 0⟩ := by
  simp only [EmplaceBackF, liveCount_Allocate]
  split <;> rfl

/-- Migration into the new block throws at element `k`: the discarded new
block holds no live slot (the new element was destroyed by the `catch`,
the migrated prefix by `std::uninitialized_*`), while the old block keeps
its size with the transferred prefix `[0, k)` in its post-transfer state —
untouched on the copy dispatch, moved-from on the move dispatch. -/
theorem EmplaceBackF_migThrow (v : Vector α) (hfull : v.Capacity ≤ v.size)
    (tr : Traits) (hollow : α → α) (x : α) (k : Nat) (hk : k < v.size) :
    v.EmplaceBackF tr hollow (some x) (some k) =
      .error ⟨⟨v.data.migrateSrc tr hollow 0 k, v.size⟩, 0⟩ := by
  have h0 : (((RawMemory.writeFrom v.data 0 ((RawMemory.Allocate α
      (if v.size = 0 then 1 else v.size * 2)).set v.size (some x)) 0
      k).destroyN 0 k).set v.size none).liveCount = 0 := by
    apply RawMemory.liveCount_eq_zero
    intro i
    simp only [RawMemory.get_set, RawMemory.get_destroyN,
      RawMemory.get_writeFrom, RawMemory.get_Allocate,
      RawMemory.Capacity_set, RawMemory.Capacity_destroyN,
      RawMemory.Capacity_writeFrom, RawMemory.Capacity_Allocate]
    split_ifs <;>
      first
        | rfl
        | (exfalso; omega)
  simp only [EmplaceBackF]
  rw [if_neg (Nat.not_lt.mpr hfull), if_pos hk, h0]

/-- No failure injected: the fallible growth-branch insert coincides with
the pure `Emplace` whenever the container is full. -/
theorem EmplaceGrowF_ok (v : Vector α) (tr : Traits) (hollow : α → α)
    (p : Nat) (x : α) (hfull : v.Capacity ≤ v.size) :
    v.EmplaceGrowF tr hollow p (some x) none = .ok (v.Emplace p x).1 := by
  simp only [EmplaceGrowF, Emplace]
  rw [if_neg (Nat.not_lt.mpr hfull)]

/-- Constructing the new element in the new block throws: the container is
unchanged and the discarded block holds no live slot. -/
theorem EmplaceGrowF_newThrow (v : Vector α) (tr : Traits) (hollow : α → α)
    (p : Nat) (mf : Option Nat) :
    v.EmplaceGrowF tr hollow p none mf = .error ⟨v, 0⟩ := by
  simp only [EmplaceGrowF, liveCount_Allocate]

/-- Either migration phase of the growth-branch insert throws: the
discarded new block holds no live slot, while the old block keeps its size
with the transferred prefix `[0, k)` in its post-transfer state. -/
theorem EmplaceGrowF_migThrow (v : Vector α) (tr : Traits) (hollow : α → α)
    (p : Nat) (hp : p ≤ v.size) (x : α) (k : Nat) (hk : k < v.size) :
    v.EmplaceGrowF tr hollow p (some x) (some k) =
      .error ⟨⟨v.data.migrateSrc tr hollow 0 k, v.size⟩, 0⟩ := by
  have h1 : (((RawMemory.writeFrom v.data 0 ((RawMemory.Allocate α
      (if v.size = 0 then 1 else v.size * 2)).set p (some x)) 0
      k).destroyN 0 k).set p none).liveCount = 0 := by
    apply RawMemory.liveCount_eq_zero
    intro i
    simp only [RawMemory.get_set, RawMemory.get_destroyN,
      RawMemory.get_writeFrom, RawMemory.get_Allocate,
      RawMemory.Capacity_set, RawMemory.Capacity_destroyN,
      RawMemory.Capacity_writeFrom, RawMemory.Capacity_Allocate]
    split_ifs <;>
      first
        | rfl
        | (exfalso; omega)
  have h2 : (((RawMemory.writeFrom v.data p (RawMemory.writeFrom v.data 0
      ((RawMemory.Allocate α (if v.size = 0 then 1 else v.size * 2)).set p
        (some x)) 0 p) (p + 1) (k - p)).destroyN (p + 1)
      (k - p)).destroyN 0 (p + 1)).liveCount = 0 := by
    apply RawMemory.liveCount_eq_zero
    intro i
    simp only [RawMemory.get_set, RawMemory.get_destroyN,
      RawMemory.get_writeFrom, RawMemory.get_Allocate,
      RawMemory.Capacity_set, RawMemory.Capacity_destroyN,
      RawMemory.Capacity_writeFrom, RawMemory.Capacity_Allocate]
    split_ifs <;>
      first
        | rfl
        | (exfalso; omega)
  simp only [EmplaceGrowF]
  by_cases hkp : k < p
  · rw [if_pos hkp, h1]
  · rw [if_neg hkp, if_pos hk, h2]

/-- No failure injected: the no-growth-branch insert model coincides with
the pure `Emplace` on its interior branch. -/
theorem EmplaceNoGrowF_ok (v : Vector α) (p : Nat) (x : α)
    (hlt : v.size < v.Capacity) (hne : p ≠ v.size) :
    v.EmplaceNoGrowF p x none = .ok (v.Emplace p x).1 := by
  simp only [EmplaceNoGrowF, Emplace]
  rw [if_pos hlt, if_neg hne]

/-- A throw inside the guarded `std::move_backward` is handled: the `catch`
destroys slot `size_`, so the propagated state still satisfies the
invariant (partially shifted values, basic guarantee, no leak). -/
theorem EmplaceNoGrowF_shiftThrow_wf (v : Vector α) (hw : v.Wf) (p t : Nat)
    (x : α) (hp : p < v.size) (hlt : v.size < v.Capacity)
    (ht : t ≤ v.size - 1 - p) :
    match v.EmplaceNoGrowF p x (some (.shift t)) with
    | .error out => out.vec.size = v.size ∧ out.leaked = 0 ∧ out.vec.Wf
    | .ok _ => False := by
  have hsz : v.size ≤ v.data.Capacity := hw.1
  have hlt' : v.size < v.data.Capacity := hlt
  refine ⟨rfl, rfl, ?_⟩
  refine Wf_of_get _ ?_ (fun i hi => ?_) (fun i hi _ => ?_)
  · show v.size ≤ RawMemory.Capacity _
    rw [RawMemory.Capacity_set, RawMemory.Capacity_writeFrom,
      RawMemory.Capacity_set]
    omega
  · have hi' : i < v.size := hi
    show (RawMemory.get _ i).isSome = true
    simp only [RawMemory.get_set, RawMemory.get_writeFrom,
      RawMemory.Capacity_set, RawMemory.Capacity_writeFrom]
    split_ifs <;>
      first
        | (exact hw.get_isSome (by omega))
        | (exfalso; omega)
  · have hi' : v.size ≤ i := hi
    show RawMemory.get _ i = none
    simp only [RawMemory.get_set, RawMemory.get_writeFrom,
      RawMemory.Capacity_set, RawMemory.Capacity_writeFrom]
    split_ifs <;>
      first
        | rfl
        | (exfalso; omega)
        | (exact hw.get_eq_none (by omega))

/-- The final `*pos_it = std::move(copy)` of the interior branch throws:
there is no handler, the element constructed at slot `size_` stays live
while `size_` is unchanged, and the propagated state violates the class
invariant (a live slot in `[size, capacity)`). -/
theorem EmplaceNoGrowF_assignThrow (v : Vector α) (hw : v.Wf) (p : Nat)
    (x : α) (hp : p < v.size) (hlt : v.size < v.Capacity) :
    match v.EmplaceNoGrowF p x (some .assign) with
    | .error out => out.vec.size = v.size ∧ out.leaked = 0 ∧
        (out.vec.get v.size).isSome = true ∧ ¬ out.vec.Wf
    | .ok _ => False := by
  have hsz : v.size ≤ v.data.Capacity := hw.1
  have hlt' : v.size < v.data.Capacity := hlt
  have hsome : ((RawMemory.writeFrom (v.data.set v.size (v.data.get
      (v.size - 1))) p (v.data.set v.size (v.data.get (v.size - 1)))
      (p + 1) (v.size - 1 - p)).get v.size).isSome = true := by
    simp only [RawMemory.get_writeFrom, RawMemory.get_set,
      RawMemory.Capacity_set]
    split_ifs <;>
      first
        | (exact hw.get_isSome (by omega))
        | (exfalso; omega)
        | (exfalso; simp_all)
  refine ⟨rfl, rfl, hsome, ?_⟩
  intro hwf
  have hcap : v.size < (⟨RawMemory.writeFrom (v.data.set v.size (v.data.get
      (v.size - 1))) p (v.data.set v.size (v.data.get (v.size - 1)))
      (p + 1) (v.size - 1 - p), v.size⟩ : Vector α).Capacity := by
    show v.size < RawMemory.Capacity _
    rw [RawMemory.Capacity_writeFrom, RawMemory.Capacity_set]
    exact hlt'
  have h2 := hwf.2 v.size hcap
  have h2' : ((RawMemory.writeFrom (v.data.set v.size (v.data.get
      (v.size - 1))) p (v.data.set v.size (v.data.get (v.size - 1)))
      (p + 1) (v.size - 1 - p)).get v.size).isSome =
        decide (v.size < v.size) := h2
  rw [decide_eq_false (by omega), hsome] at h2'
  cases h2'

/-- No failure injected: the fallible `Reserve` coincides with the pure
one. -/
theorem ReserveF_ok (v : Vector α) (n : Nat) (tr : Traits)
    (hollow : α → α) :
    v.ReserveF n tr hollow true none = .ok (v.Reserve n) := by
  unfold ReserveF Reserve
  split <;> rfl

/-- Allocation of the new block fails: the container is unchanged and
nothing was constructed. -/
theorem ReserveF_allocThrow (v : Vector α) (n : Nat) (tr : Traits)
    (hollow : α → α) (h : v.Capacity < n) (mf : Option Nat) :
    v.ReserveF n tr hollow false mf = .error ⟨v, 0⟩ := by
  unfold ReserveF
  rw [if_neg (by omega)]
  rfl

/-- Migration into the new block throws at element `k`: the discarded new
block holds no live slot, while the old block keeps its size with the
transferred prefix `[0, k)` in its post-transfer state. -/
theorem ReserveF_migThrow (v : Vector α) (n : Nat) (tr : Traits)
    (hollow : α → α) (h : v.Capacity < n) (k : Nat) (hk : k < v.size) :
    v.ReserveF n tr hollow true (some k) =
      .error ⟨⟨v.data.migrateSrc tr hollow 0 k, v.size⟩, 0⟩ := by
  have h0 : ((RawMemory.writeFrom v.data 0 (RawMemory.Allocate α n) 0
      k).destroyN 0 k).liveCount = 0 := by
    apply RawMemory.liveCount_eq_zero
    intro i
    simp only [RawMemory.get_destroyN, RawMemory.get_writeFrom,
      RawMemory.get_Allocate, RawMemory.Capacity_destroyN,
      RawMemory.Capacity_writeFrom, RawMemory.Capacity_Allocate]
    split_ifs <;>
      first
        | rfl
        | (exfalso; omega)
  simp only [ReserveF]
  rw [if_neg (by omega), if_pos hk, h0]
  rfl

/-- The damaged-prefix state left behind when a move-dispatch migration
throws still satisfies the invariant: hollowing changes values, never
liveness. -/
theorem Wf_migrateSrcVec (v : Vector α) (hw : v.Wf) (tr : Traits)
    (hollow : α → α) (a n : Nat) :
    (⟨v.data.migrateSrc tr hollow a n, v.size⟩ : Vector α).Wf := by
  refine Wf_of_get _ ?_ (fun i hi => ?_) (fun i hi _ => ?_)
  · show v.size ≤ RawMemory.Capacity _
    rw [RawMemory.Capacity_migrateSrc]
    exact hw.1
  · have hi' : i < v.size := hi
    show ((v.data.migrateSrc tr hollow a n).get i).isSome = true
    rw [RawMemory.isSome_get_migrateSrc]
    exact hw.get_isSome hi'
  · have hi' : v.size ≤ i := hi
    have hnone : v.data.get i = none := hw.get_eq_none hi'
    show (v.data.migrateSrc tr hollow a n).get i = none
    rw [RawMemory.get_migrateSrc]
    split_ifs
    · rw [hnone]
      rfl
    · exact hnone

/-- No failure injected: the fallible `Resize` coincides with the pure one. -/
theorem ResizeF_ok (v : Vector α) (dflt : α) (n : Nat) :
    v.ResizeF dflt n none = .ok (v.Resize dflt n) := by
  unfold ResizeF Resize
  split <;> rfl

/-- Value construction of the `k`-th new tail element throws during growth:
the size stays at its pre-call value, every slot reads as before the call,
the invariant holds, and nothing leaks.  (Capacity may have grown: `Reserve`
already succeeded.) -/
theorem ResizeF_ctorThrow (v : Vector α) (hw : v.Wf) (dflt : α) (n k : Nat)
    (hge : v.size ≤ n) (hk : k < n - v.size) :
    v.ResizeF dflt n (some k) =
      .error ⟨⟨((v.Reserve n).data.constructN v.size dflt k).destroyN v.size k,
        v.size⟩, 0⟩ ∧
    (∀ i, (⟨((v.Reserve n).data.constructN v.size dflt k).destroyN v.size k,
        v.size⟩ : Vector α).get i = v.get i) := by
  constructor
  · simp only [ResizeF]
    rw [if_neg (by omega), if_pos hk]
  · intro i
    show (((v.Reserve n).data.constructN v.size dflt k).destroyN v.size k).get
      i = v.get i
    have hres : ∀ j, (v.Reserve n).data.get j = v.get j := fun j =>
      Reserve_get v hw n j
    simp only [RawMemory.get_destroyN, RawMemory.get_constructN,
      RawMemory.Capacity_destroyN, RawMemory.Capacity_constructN, hres]
    split_ifs <;>
      first
        | rfl
        | (exfalso; omega)
        | exact (hw.get_eq_none (by omega)).symm

/-- No failure injected: the fallible copy assignment coincides with the
pure one (with `this != &rhs`). -/
theorem copyAssignF_ok (v rhs : Vector α) :
    v.copyAssignF rhs none = .ok (copyAssign v rhs false) := by
  unfold copyAssignF copyAssign
  simp only [Bool.false_eq_true, if_false]
  split_ifs <;> rfl

/-- Reallocating path of copy assignment, copy construction of element `k`
into `rhs_copy` throws: the target is unchanged and the discarded block
holds no live slot. -/
theorem copyAssignF_reallocThrow (v rhs : Vector α)
    (hcap : v.Capacity < rhs.size) (k : Nat) (hk : k < rhs.size) :
    v.copyAssignF rhs (some k) = .error ⟨v, 0⟩ := by
  have h0 : ((RawMemory.writeFrom rhs.data 0 (RawMemory.Allocate α rhs.size) 0
      k).destroyN 0 k).liveCount = 0 := by
    apply RawMemory.liveCount_eq_zero
    intro i
    simp only [RawMemory.get_destroyN, RawMemory.get_writeFrom,
      RawMemory.get_Allocate, RawMemory.Capacity_destroyN,
      RawMemory.Capacity_writeFrom, RawMemory.Capacity_Allocate]
    split_ifs <;>
      first
        | rfl
        | (exfalso; omega)
  simp only [copyAssignF]
  rw [if_pos hcap, if_pos hk, h0]

/-- In-place path, the `k`-th element assignment `data_[i] = rhs.data_[i]`
throws: the target keeps its size, holds `rhs`'s values on `[0, k)` and its
own on the rest, still satisfies the invariant, and nothing leaks (basic
guarantee, partially updated state). -/
theorem copyAssignF_assignThrow (v rhs : Vector α) (hw : v.Wf)
    (hwr : rhs.Wf) (hcap : rhs.size ≤ v.Capacity) (k : Nat)
    (hk : k < min v.size rhs.size) :
    v.copyAssignF rhs (some k) =
      .error ⟨⟨RawMemory.writeFrom rhs.data 0 v.data 0 k, v.size⟩, 0⟩ ∧
    (∀ i, (⟨RawMemory.writeFrom rhs.data 0 v.data 0 k, v.size⟩ :
        Vector α).get i = if i < k then rhs.get i else v.get i) ∧
    (⟨RawMemory.writeFrom rhs.data 0 v.data 0 k, v.size⟩ : Vector α).Wf := by
  have hsz : v.size ≤ v.data.Capacity := hw.1
  have hcap' : rhs.size ≤ v.data.Capacity := hcap
  have hkv : k < v.size := lt_of_lt_of_le hk (min_le_left _ _)
  have hkr : k < rhs.size := lt_of_lt_of_le hk (min_le_right _ _)
  have hget : ∀ i, (⟨RawMemory.writeFrom rhs.data 0 v.data 0 k, v.size⟩ :
      Vector α).get i = if i < k then rhs.get i else v.get i := by
    intro i
    simp only [get, RawMemory.get_writeFrom]
    split_ifs <;>
      first
        | rfl
        | (congr 1 <;> omega)
        | (exfalso; omega)
  refine ⟨?_, hget, ?_⟩
  · simp only [copyAssignF]
    rw [if_neg (by omega)]
    by_cases hlt : rhs.size < v.size
    · rw [if_pos hlt, if_pos hkr]
    · rw [if_neg hlt, if_pos hkv]
  · refine Wf_of_get _ ?_ (fun i hi => ?_) (fun i hi _ => ?_)
    · show v.size ≤ RawMemory.Capacity _
      rw [RawMemory.Capacity_writeFrom]
      exact hsz
    · have hi' : i < v.size := hi
      rw [hget i]
      split_ifs with h
      · exact hwr.get_isSome (by omega)
      · exact hw.get_isSome hi'
    · have hi' : v.size ≤ i := hi
      rw [hget i, if_neg (by omega)]
      exact hw.get_eq_none hi'

/-- In-place growing path, copy construction of the `k`-th extra tail
element throws: the target keeps its size, holds `rhs`'s values on the
whole surviving prefix `[0, size)` (all assignments completed), its tail
partials were destroyed, the invariant holds, and nothing leaks. -/
theorem copyAssignF_tailThrow (v rhs : Vector α) (hw : v.Wf)
    (hwr : rhs.Wf) (hcap : rhs.size ≤ v.Capacity) (k : Nat)
    (hk1 : v.size ≤ k) (hk2 : k < rhs.size) :
    match v.copyAssignF rhs (some k) with
    | .error out => out.vec.size = v.size ∧ out.leaked = 0 ∧ out.vec.Wf ∧
        ∀ i, out.vec.get i = if i < v.size then rhs.get i else none
    | .ok _ => False := by
  have hsz : v.size ≤ v.data.Capacity := hw.1
  have hcap' : rhs.size ≤ v.data.Capacity := hcap
  simp only [copyAssignF]
  rw [if_neg (by omega), if_neg (by omega), if_neg (by omega), if_pos hk2]
  have hget : ∀ i, ((RawMemory.writeFrom rhs.data v.size
      (RawMemory.writeFrom rhs.data 0 v.data 0 v.size) v.size
      (k - v.size)).destroyN v.size (k - v.size)).get i =
        if i < v.size then rhs.get i else none := by
    intro i
    simp only [get, RawMemory.get_destroyN, RawMemory.get_writeFrom,
      RawMemory.Capacity_destroyN, RawMemory.Capacity_writeFrom]
    split_ifs <;>
      first
        | rfl
        | (congr 1 <;> omega)
        | (exfalso; omega)
        | exact hw.get_eq_none (by omega)
  refine ⟨rfl, rfl, ?_, hget⟩
  refine Wf_of_get _ ?_ (fun i hi => ?_) (fun i hi _ => ?_)
  · show v.size ≤ RawMemory.Capacity _
    rw [RawMemory.Capacity_destroyN, RawMemory.Capacity_writeFrom,
      RawMemory.Capacity_writeFrom]
    exact hsz
  · have hi' : i < v.size := hi
    rw [show (⟨(RawMemory.writeFrom rhs.data v.size
        (RawMemory.writeFrom rhs.data 0 v.data 0 v.size) v.size
        (k - v.size)).destroyN v.size (k - v.size), v.size⟩ : Vector α).get i
          = _ from hget i]
    rw [if_pos hi']
    exact hwr.get_isSome (by omega)
  · have hi' : v.size ≤ i := hi
    rw [show (⟨(RawMemory.writeFrom rhs.data v.size
        (RawMemory.writeFrom rhs.data 0 v.data 0 v.size) v.size
        (k - v.size)).destroyN v.size (k - v.size), v.size⟩ : Vector α).get i
          = _ from hget i]
    rw [if_neg (Nat.not_lt.mpr hi')]

/-- Every throwing outcome of `Resize` leaves a state satisfying the
invariant. -/
theorem ResizeF_err_wf (v : Vector α) (hw : v.Wf) (dflt : α) (n : Nat)
    (failAt : Option Nat) (out : ThrowOut α)
    (h : v.ResizeF dflt n failAt = .error out) : out.vec.Wf := by
  cases failAt with
  | none =>
    rw [ResizeF_ok] at h
    cases h
  | some k =>
    by_cases hlt : n < v.size
    · simp only [ResizeF] at h
      rw [if_pos hlt] at h
      cases h
    · by_cases hk : k < n - v.size
      · have hspec := ResizeF_ctorThrow v hw dflt n k (by omega) hk
        rw [hspec.1] at h
        cases h
        refine Wf_of_get _ ?_ (fun i hi => ?_) (fun i hi _ => ?_)
        · show v.size ≤ RawMemory.Capacity _
          rw [RawMemory.Capacity_destroyN, RawMemory.Capacity_constructN]
          have h1 := Reserve_Capacity v n
          have h2 : v.size ≤ v.data.Capacity := hw.1
          unfold Capacity at h1
          omega
        · have hi' : i < v.size := hi
          rw [hspec.2 i]
          exact hw.get_isSome hi'
        · have hi' : v.size ≤ i := hi
          rw [hspec.2 i]
          exact hw.get_eq_none hi'
      · simp only [ResizeF] at h
        rw [if_neg hlt, if_neg hk] at h
        cases h

/-- Every throwing outcome of copy assignment (with `this != &rhs`) leaves a
state satisfying the invariant. -/
theorem copyAssignF_err_wf (v rhs : Vector α) (hw : v.Wf) (hwr : rhs.Wf)
    (failAt : Option Nat) (out : ThrowOut α)
    (h : v.copyAssignF rhs failAt = .error out) : out.vec.Wf := by
  cases failAt with
  | none =>
    rw [copyAssignF_ok] at h
    cases h
  | some k =>
    by_cases hcap : v.Capacity < rhs.size
    · by_cases hk : k < rhs.size
      · rw [copyAssignF_reallocThrow v rhs hcap k hk] at h
        cases h
        exact hw
      · simp only [copyAssignF] at h
        rw [if_pos hcap, if_neg hk] at h
        cases h
    · by_cases hk1 : k < min v.size rhs.size
      · have hspec := copyAssignF_assignThrow v rhs hw hwr (by omega) k hk1
        rw [hspec.1] at h
        cases h
        exact hspec.2.2
      · by_cases hk2 : v.size ≤ k ∧ k < rhs.size
        · have hspec := copyAssignF_tailThrow v rhs hw hwr (by omega) k
            hk2.1 hk2.2
          rw [h] at hspec
          exact hspec.2.2.1
        · simp only [copyAssignF] at h
          rw [if_neg hcap] at h
          by_cases hlt : rhs.size < v.size
          · rw [if_pos hlt, if_neg (by omega)] at h
            cases h
          · rw [if_neg hlt, if_neg (by omega), if_neg (by omega)] at h
            cases h


/-- C1: the code violates this claim on the no-growth interior branch of
`Emplace`/`Insert`: the final `*pos_it = std::move(copy)` is performed
outside any `try`/`catch`, so when that assignment throws, the element
constructed at slot `size_` stays live while `size_` is unchanged — a live
element sits in `[size, capacity)`, the invariant is NOT re-established
before the exception propagates, and that element is never destroyed.
Concretely: a size-2, capacity-3 vector holding 1, 2; `Emplace` at index 0
whose final assignment throws leaves the block holding live elements
1, 1, 2 with size still 2, which violates `Wf`. -/
theorem C1_nogrow_assign_breaks_invariant :
    (⟨⟨[some 1, some 2, none]⟩, 2⟩ : Vector Nat).Wf ∧
    (Vector.EmplaceNoGrowF (⟨⟨[some 1, some 2, none]⟩, 2⟩ : Vector Nat) 0 9
        (some .assign) =
      .error ⟨⟨⟨[some 1, some 1, some 2]⟩, 2⟩, 0⟩) ∧
    ¬ (⟨⟨[some 1, some 1, some 2]⟩, 2⟩ : Vector Nat).Wf :=
  ⟨by decide, rfl, by decide⟩

/-- C2 (amended): when a full (`size == capacity`) vector grows through
`PushBack`/`EmplaceBack` or the growth branch of `Emplace`/`Insert` and
construction of the new element throws, the container is unchanged; when
migration of the existing elements throws, the already-constructed new
element is destroyed, nothing leaks, and the old block remains the
container's storage with its size and liveness unchanged and the slots
from the failure point on untouched — with its prior contents fully
intact under the copy dispatch, while under the move dispatch (element
type not copy-constructible with a throwing move) the transferred prefix
is left in moved-from states. -/
theorem C2_growth_guarantee (α : Type) (v : Vector α) (tr : Traits)
    (hollow : α → α) (x : α) (p k : Nat) (mf : Option Nat) (hw : v.Wf)
    (hfull : v.size = v.Capacity) (hk : k < v.size) (hp : p ≤ v.size) :
    GrowthFailSpec v tr hollow x p k mf := by
  have hfull' : v.Capacity ≤ v.size := le_of_eq hfull.symm
  have hmigB := EmplaceBackF_migThrow v hfull' tr hollow x k hk
  have hmigG := EmplaceGrowF_migThrow v tr hollow p hp x k hk
  refine ⟨EmplaceBackF_newThrow v tr hollow mf,
    EmplaceGrowF_newThrow v tr hollow p mf, ?_, hmigB, hmigG,
    Wf_migrateSrcVec v hw tr hollow 0 k, ?_, ?_⟩
  · intro hcopy
    constructor
    · rw [hmigB, RawMemory.migrateSrc_of_copy v.data tr hollow 0 k hcopy]
    · rw [hmigG, RawMemory.migrateSrc_of_copy v.data tr hollow 0 k hcopy]
  · intro i hi
    exact RawMemory.get_migrateSrc_out v.data tr hollow 0 k i (by omega)
  · intro i
    exact RawMemory.isSome_get_migrateSrc v.data tr hollow 0 k i

/-- C2, counterexample to the claim as stated: for a non-copy-constructible
element type with a throwing move constructor (the
`std::uninitialized_move` dispatch of `UninitializedMoveOrCopyN`), a
migration throw during growth does NOT leave the old block's prior
contents intact: at a full size-2 vector holding 3, 4, a throw at
migration step 1 propagates with the old block's slot 0 moved-from (its
value no longer 3). -/
theorem C2_counterexample :
    useMove ⟨false, false⟩ = true ∧
    (⟨⟨[some 3, some 4]⟩, 2⟩ : Vector Nat).Wf ∧
    (Vector.EmplaceBackF (⟨⟨[some 3, some 4]⟩, 2⟩ : Vector Nat)
        ⟨false, false⟩ (fun _ => 0) (some 9) (some 1) =
      .error ⟨⟨⟨[some 0, some 4]⟩, 2⟩, 0⟩) ∧
    (⟨⟨[some 0, some 4]⟩, 2⟩ : Vector Nat) ≠
      (⟨⟨[some 3, some 4]⟩, 2⟩ : Vector Nat) :=
  ⟨rfl, by decide, rfl, by decide⟩

theorem C2_witness :
    (⟨⟨[some 3, some 4]⟩, 2⟩ : Vector Nat).Wf ∧
    (⟨⟨[some 3, some 4]⟩, 2⟩ : Vector Nat).size =
      (⟨⟨[some 3, some 4]⟩, 2⟩ : Vector Nat).Capacity ∧
    1 < (⟨⟨[some 3, some 4]⟩, 2⟩ : Vector Nat).size ∧
    1 ≤ (⟨⟨[some 3, some 4]⟩, 2⟩ : Vector Nat).size ∧
    GrowthFailSpec (⟨⟨[some 3, some 4]⟩, 2⟩ : Vector Nat) ⟨false, false⟩
      (fun _ => 0) 9 1 1 none :=
  ⟨by decide, by decide, by decide, by decide,
    C2_growth_guarantee Nat ⟨⟨[some 3, some 4]⟩, 2⟩ ⟨false, false⟩
      (fun _ => 0) 9 1 1 none (by decide) (by decide) (by decide)
      (by decide)⟩

/-- C3 (amended): `Reserve(n)` is a no-op when `n ≤ capacity`; otherwise
it yields a block of capacity exactly `n`, preserves size and every
element value, destroys the old elements before releasing the old block,
and keeps the invariant; migration moves iff the element type is
nothrow-move-constructible or not copy-constructible; a failed allocation,
and a failed migration under the copy dispatch, leave the vector bitwise
unchanged with nothing leaked; a failed migration under the move dispatch
leaves size, capacity and liveness unchanged and the slots from the
failure point on untouched, with the transferred prefix in moved-from
states. -/
theorem C3_Reserve_contract (α : Type) (v : Vector α) (n k : Nat)
    (tr : Traits) (hollow : α → α) (mf : Option Nat) (hw : v.Wf) :
    ReserveSpec v n k tr hollow mf := by
  refine ⟨?_, ?_, ?_, ?_, ?_⟩
  · intro hle
    unfold Reserve
    rw [if_pos hle]
  · intro hgt
    refine ⟨?_, Reserve_size v n, fun i => Reserve_get v hw n i,
      Wf_Reserve v hw n, ReserveDeallocLive_eq_zero v hw⟩
    rw [Reserve_Capacity]
    omega
  · cases tr with
    | mk a b => cases a <;> cases b <;> simp [useMove]
  · intro hgt
    exact ReserveF_allocThrow v n tr hollow hgt mf
  · intro hgt hk
    have hmig := ReserveF_migThrow v n tr hollow hgt k hk
    refine ⟨?_, hmig, Wf_migrateSrcVec v hw tr hollow 0 k, ?_, ?_⟩
    · intro hcopy
      rw [hmig, RawMemory.migrateSrc_of_copy v.data tr hollow 0 k hcopy]
    · intro i hi
      exact RawMemory.get_migrateSrc_out v.data tr hollow 0 k i (by omega)
    · intro i
      exact RawMemory.isSome_get_migrateSrc v.data tr hollow 0 k i

/-- C3, counterexample to the claim as stated: under the
`std::uninitialized_move` dispatch (element type not copy-constructible,
throwing move), a migration throw inside `Reserve` does NOT leave the
vector unchanged: at a size-2, capacity-2 vector holding 3, 4, reserving 5
with a throw at migration step 1 propagates with slot 0 moved-from. -/
theorem C3_counterexample :
    useMove ⟨false, false⟩ = true ∧
    (⟨⟨[some 3, some 4]⟩, 2⟩ : Vector Nat).Wf ∧
    (Vector.ReserveF (⟨⟨[some 3, some 4]⟩, 2⟩ : Vector Nat) 5
        ⟨false, false⟩ (fun _ => 0) true (some 1) =
      .error ⟨⟨⟨[some 0, some 4]⟩, 2⟩, 0⟩) ∧
    (⟨⟨[some 0, some 4]⟩, 2⟩ : Vector Nat) ≠
      (⟨⟨[some 3, some 4]⟩, 2⟩ : Vector Nat) :=
  ⟨rfl, by decide, rfl, by decide⟩

theorem C3_witness :
    (⟨⟨[some 2]⟩, 1⟩ : Vector Nat).Wf ∧
    ReserveSpec (⟨⟨[some 2]⟩, 1⟩ : Vector Nat) 3 0 ⟨false, false⟩
      (fun _ => 0) none :=
  ⟨by decide,
    C3_Reserve_contract Nat ⟨⟨[some 2]⟩, 1⟩ 3 0 ⟨false, false⟩
      (fun _ => 0) none (by decide)⟩

/-- C4: copy assignment between distinct vectors reallocates exactly when
the source's size exceeds the target's capacity — on that path a failure
leaves the target unmodified (strong guarantee) — otherwise it assigns
in place over the common prefix and destroys or copy-constructs the tail,
where a throw leaves a valid but possibly partially-updated state (basic
guarantee); on success the target's size and elements equal the source's. -/
theorem C4_copyAssign_contract (α : Type) (v rhs : Vector α) (k : Nat)
    (hw : v.Wf) (hwr : rhs.Wf) : CopyAssignSpec v rhs k := by
  refine ⟨⟨copyAssign_size v rhs, ?_, copyAssign_Capacity v rhs,
    Wf_copyAssign v rhs hw hwr false⟩, ?_, ?_, ?_⟩
  · intro i hi
    rw [copyAssign_get v rhs hw hwr i, if_pos hi]
  · intro h1 h2
    exact copyAssignF_reallocThrow v rhs h1 k h2
  · intro h1 h2
    exact copyAssignF_assignThrow v rhs hw hwr h1 k h2
  · intro h1 h2 h3
    exact copyAssignF_tailThrow v rhs hw hwr h1 k h2 h3

theorem C4_witness :
    (⟨⟨[some 1, some 2, none]⟩, 2⟩ : Vector Nat).Wf ∧
    (⟨⟨[some 7]⟩, 1⟩ : Vector Nat).Wf ∧
    CopyAssignSpec (⟨⟨[some 1, some 2, none]⟩, 2⟩ : Vector Nat)
      (⟨⟨[some 7]⟩, 1⟩ : Vector Nat) 0 :=
  ⟨by decide, by decide,
    C4_copyAssign_contract Nat ⟨⟨[some 1, some 2, none]⟩, 2⟩ ⟨⟨[some 7]⟩, 1⟩
      0 (by decide) (by decide)⟩

/-- C5: whenever an append or insert finds the vector full
(`size == capacity`) and grows, the newly allocated block's capacity is
`max(1, 2 * old_capacity)`, including from capacity 0. -/
theorem C5_growth_policy (α : Type) (v : Vector α) (x : α) (p : Nat)
    (hfull : v.size = v.Capacity) : GrowthPolicySpec v x p := by
  have h1 : (v.EmplaceBackImpl x).Capacity = max 1 (2 * v.Capacity) := by
    rw [EmplaceBackImpl_Capacity, hfull]
    split_ifs <;> omega
  have h2 : (v.Emplace p x).1.Capacity = max 1 (2 * v.Capacity) := by
    rw [Emplace_Capacity, hfull]
    split_ifs <;> omega
  exact ⟨h1, h1, h1, h2, h2⟩

theorem C5_witness :
    ((Vector.empty Nat).size = (Vector.empty Nat).Capacity ∧
      GrowthPolicySpec (Vector.empty Nat) 5 0) ∧
    ((⟨⟨[some 8, some 9]⟩, 2⟩ : Vector Nat).size =
        (⟨⟨[some 8, some 9]⟩, 2⟩ : Vector Nat).Capacity ∧
      GrowthPolicySpec (⟨⟨[some 8, some 9]⟩, 2⟩ : Vector Nat) 5 1) :=
  ⟨⟨by decide, C5_growth_policy Nat (Vector.empty Nat) 5 0 (by decide)⟩,
   ⟨by decide, C5_growth_policy Nat ⟨⟨[some 8, some 9]⟩, 2⟩ 5 1 (by decide)⟩⟩

/-- C6: `Insert`/`Emplace` at `p ≤ size` yields size `n+1`, puts the new
element at `p` with the old suffix shifted right by one and returns
iterator index `p`; `Erase` at `q < size` shifts the suffix left over `q`,
destroys the vacated last slot, yields size `n-1` and returns iterator
index `q`; and `Erase(p)` after `Insert(p, v)` restores the original
contents. -/
theorem C6_insert_erase (α : Type) (v : Vector α) (p q : Nat) (x : α)
    (hw : v.Wf) (hp : p ≤ v.size) (hq : q < v.size) :
    InsertEraseSpec v p q x := by
  have hwf' : (v.Emplace p x).1.Wf := Wf_Emplace v hw p x hp
  have hsz' : (v.Emplace p x).1.size = v.size + 1 := Emplace_size v p x
  have hpq : p < (v.Emplace p x).1.size := by omega
  refine ⟨⟨Emplace_size v p x, Emplace_idx v p x, ?_, ?_, ?_, rfl⟩,
    ⟨Erase_size v q, Erase_idx v q, ?_, ?_⟩, ?_, ?_⟩
  · rw [Emplace_get v hw p x hp p, if_neg (by omega), if_pos rfl]
  · intro i hi
    rw [Emplace_get v hw p x hp i, if_pos hi]
  · intro i hi1 hi2
    rw [Emplace_get v hw p x hp (i + 1), if_neg (by omega),
      if_neg (by omega), if_pos (by omega)]
    congr 1
  · intro i hi
    rw [Erase_get v hw q hq i, if_pos hi]
  · intro i hi1 hi2
    rw [Erase_get v hw q hq i, if_neg (by omega), if_pos hi2]
  · rw [Erase_size, hsz']
    omega
  · intro i
    rw [Erase_get _ hwf' p hpq i, hsz']
    split_ifs with h1 h2
    · rw [Emplace_get v hw p x hp i, if_pos h1]
    · rw [Emplace_get v hw p x hp (i + 1), if_neg (by omega),
        if_neg (by omega), if_pos (by omega)]
      congr 1
    · exact (hw.get_eq_none (by omega)).symm

theorem C6_witness :
    (⟨⟨[some 1, some 2, none]⟩, 2⟩ : Vector Nat).Wf ∧
    1 ≤ (⟨⟨[some 1, some 2, none]⟩, 2⟩ : Vector Nat).size ∧
    0 < (⟨⟨[some 1, some 2, none]⟩, 2⟩ : Vector Nat).size ∧
    InsertEraseSpec (⟨⟨[some 1, some 2, none]⟩, 2⟩ : Vector Nat) 1 0 9 :=
  ⟨by decide, by decide, by decide,
    C6_insert_erase Nat ⟨⟨[some 1, some 2, none]⟩, 2⟩ 1 0 9 (by decide)
      (by decide) (by decide)⟩

/-- C7: move construction and move assignment (between distinct vectors)
transfer the source's block and size to the destination without touching
any element, and leave the source empty: size 0, capacity 0, null buffer.
(They are total functions in this model; the source runs no element
operation, matching `noexcept`.) -/
theorem C7_move_transfer (α : Type) (v rhs : Vector α) :
    (moveCtor v).1.data = v.data ∧ (moveCtor v).1.size = v.size ∧
    (moveCtor v).2.size = 0 ∧ (moveCtor v).2.Capacity = 0 ∧
    (moveCtor v).2.data.buffer = [] ∧
    (moveAssign v rhs false).1.data = rhs.data ∧
    (moveAssign v rhs false).1.size = rhs.size ∧
    (moveAssign v rhs false).2.size = 0 ∧
    (moveAssign v rhs false).2.Capacity = 0 ∧
    (moveAssign v rhs false).2.data.buffer = [] :=
  ⟨rfl, rfl, rfl, rfl, rfl, rfl, rfl, rfl, rfl, rfl⟩

/-- C8: `Resize(n)` shrinks by destroying exactly the trailing `s - n`
elements, or grows by reserving and default-constructing the tail, keeping
the prefix; the final size is `n`; and a throwing tail construction during
growth leaves the size at its pre-call value with all values intact and no
leak. -/
theorem C8_Resize_contract (α : Type) (v : Vector α) (dflt : α) (n k : Nat)
    (hw : v.Wf) : ResizeSpec v dflt n k := by
  have hsz : v.size ≤ v.data.Capacity := hw.1
  refine ⟨Resize_size v dflt n, Wf_Resize v hw dflt n, ?_, ?_, ?_⟩
  · intro hlt
    refine ⟨fun i hi => ?_, fun i hi => ?_, ?_⟩
    · rw [Resize_get v hw dflt n i, if_pos (by omega)]
    · rw [Resize_get v hw dflt n i, if_neg (by omega), if_neg (by omega)]
    · rw [Resize_Capacity, if_pos hlt]
  · intro hge
    refine ⟨?_, fun i hi => ?_, fun i hi1 hi2 => ?_⟩
    · rw [Resize_Capacity, if_neg (by omega)]
      omega
    · rw [Resize_get v hw dflt n i, if_pos (by omega)]
    · rw [Resize_get v hw dflt n i, if_neg (by omega), if_pos hi2]
  · intro hge hk
    have hspec := ResizeF_ctorThrow v hw dflt n k hge hk
    have hwfe := ResizeF_err_wf v hw dflt n (some k) _ hspec.1
    rw [hspec.1]
    exact ⟨rfl, rfl, hspec.2, hwfe⟩

theorem C8_witness :
    (⟨⟨[some 4, none, none]⟩, 1⟩ : Vector Nat).Wf ∧
    ResizeSpec (⟨⟨[some 4, none, none]⟩, 1⟩ : Vector Nat) 0 3 1 :=
  ⟨by decide,
    C8_Resize_contract Nat ⟨⟨[some 4, none, none]⟩, 1⟩ 0 3 1 (by decide)⟩

/-- C9: the claim is violated by the code.  Move-assigning onto a vector
that holds one live element runs `RawMemory::operator=(RawMemory&&)`,
which calls `Deallocate(buffer_)` on the target's old block while that
element is still live — no destructor is run first, and `~RawMemory` has
no assertion about live elements.  The instrumented live count at the
`Deallocate` call is 1; the claim requires that it be 0. -/
theorem C9_moveAssign_dealloc_live :
    (⟨⟨[some 7]⟩, 1⟩ : Vector Nat).Wf ∧
    (Vector.moveAssignInstr (⟨⟨[some 7]⟩, 1⟩ : Vector Nat)
      (Vector.empty Nat) false).2 = 1 ∧
    (1 : Nat) ≠ 0 := by
  refine ⟨by decide, rfl, by decide⟩

/-- C10: self-assignment is a no-op: both `operator=(const Vector&)` and
`operator=(Vector&&)` detect the identity case (`this == &rhs`, modelled
by the flag), return the vector unchanged, run no element operation and
deallocate nothing. -/
theorem C10_self_assignment_noop (α : Type) (v : Vector α) :
    copyAssign v v true = v ∧
    moveAssign v v true = (v, v) ∧
    moveAssignInstr v v true = ((v, v), 0) :=
  ⟨rfl, rfl, rfl⟩

end Vector

end AdvVec
